import Mathlib

/-!
Verification of the assu-parser repository (an Aseprite binary sprite-file
decoder and compositor written in Rust) against its natural-language
specification.  The Rust sources are shallowly embedded below: byte streams
are lists of naturals (each < 256 for well-formed inputs), machine integers
are naturals or integers with explicit wrap-arounds where the source can
overflow, fallible code returns an explicit result type, and the f32
arithmetic of the blend engine is modelled exactly by IEEE-754 binary32
round-to-nearest-even over the rationals.
-/

set_option maxRecDepth 4096

namespace Ase

/-! ## Byte-level scalar readers (binary/scalars.rs)

The repository parses with nom over byte slices.  A parser here takes the
input byte list and returns the remaining input together with the parsed
value, or a parse error.  The scalars module itself is not among the
provided sources; the readers below follow the spec (section 2, Scalar
Cursor): fixed-width little-endian integers and fixed-length byte runs. -/

/-- Parse errors.  Modelled from the spec: the repository error type
(binary/errors.rs) is not among the provided sources; the spec names the
palette-range failure InvalidPaletteRange (section 4.2), the tag-range
failure InvalidFrameRange (section 4.5) and the frame-size failure
InvalidFrameSize. An input that is too short fails with an end-of-input
error, and a mismatched magic-number tag with a tag error. -/
inductive PErr where
  | eof
  | invalidPaletteRange
  | invalidFrameRange (from_frame to_frame : Nat)
  | invalidFrameSize
  | nomTag
  deriving DecidableEq, Repr

instance {ε α : Type} [DecidableEq ε] [DecidableEq α] : DecidableEq (Except ε α) := fun a b =>
  match a, b with
  | .ok x, .ok y =>
      if h : x = y then .isTrue (congrArg _ h) else .isFalse (fun hh => h (Except.ok.inj hh))
  | .error x, .error y =>
      if h : x = y then .isTrue (congrArg _ h) else .isFalse (fun hh => h (Except.error.inj hh))
  | .ok _, .error _ => .isFalse (fun hh => Except.noConfusion hh)
  | .error _, .ok _ => .isFalse (fun hh => Except.noConfusion hh)

/-- Result of a nom-style parser: remaining input plus value, or an error. -/
abbrev ParseResult (α : Type) := Except PErr (List Nat × α)

/-- Slice exactly n bytes off the input (nom take), failing on short input. -/
def takeP (n : Nat) (input : List Nat) : ParseResult (List Nat) :=
  if n ≤ input.length then .ok (input.drop n, input.take n) else .error .eof

/-- Read one byte. -/
def byteP (input : List Nat) : ParseResult Nat :=
  match input with
  | b :: rest => .ok (rest, b)
  | [] => .error .eof

/-- Read a 16-bit little-endian word. -/
def word (input : List Nat) : ParseResult Nat :=
  match input with
  | b0 :: b1 :: rest => .ok (rest, b0 + 256 * b1)
  | _ => .error .eof

/-- Read a 32-bit little-endian dword. -/
def dword (input : List Nat) : ParseResult Nat :=
  match input with
  | b0 :: b1 :: b2 :: b3 :: rest =>
      .ok (rest, b0 + 256 * b1 + 65536 * b2 + 16777216 * b3)
  | _ => .error .eof

/-- Little-endian encoding of a 16-bit value. -/
def le16 (x : Nat) : List Nat := [x % 256, x / 256 % 256]

/-- Little-endian encoding of a 32-bit value. -/
def le32 (x : Nat) : List Nat :=
  [x % 256, x / 256 % 256, x / 65536 % 256, x / 16777216 % 256]

/-- An RGBA color as parsed by parse_color (binary/scalars.rs). -/
structure Color where
  red : Nat
  green : Nat
  blue : Nat
  alpha : Nat
  deriving DecidableEq, Repr

/-- The all-zero color, the Default of the Rust Color type. -/
def Color.zero : Color := ⟨0, 0, 0, 0⟩

/-- Read a 4-byte RGBA color (parse_color in binary/scalars.rs). -/
def parse_color (input : List Nat) : ParseResult Color :=
  match input with
  | r :: g :: b :: a :: rest => .ok (rest, ⟨r, g, b, a⟩)
  | _ => .error .eof

/-- Read a length-prefixed string (parse_string in binary/scalars.rs):
a 16-bit length followed by that many bytes.  The string is kept as its
raw byte list in the parser model. -/
def parse_string (input : List Nat) : ParseResult (List Nat) :=
  (word input).bind fun (i1, len) => takeP len i1

/-- Run a parser a fixed number of times (nom count combinator). -/
def countParse (p : List Nat → ParseResult α) : Nat → List Nat → ParseResult (List α)
  | 0, input => .ok (input, [])
  | n + 1, input =>
      (p input).bind fun (i1, a) =>
      (countParse p n i1).map fun (i2, as_) => (i2, a :: as_)

/-! ## Palette chunk decoder (sprity-aseprite/src/binary/chunks/palette.rs) -/

/-- One palette entry: a color and an optional name
(struct PaletteEntry in chunks/palette.rs). -/
structure PaletteEntry where
  color : Color
  name : Option (List Nat)
  deriving DecidableEq, Repr

/-- A parsed palette chunk (struct PaletteChunk in chunks/palette.rs). -/
structure PaletteChunk where
  first_index : Nat
  entries : List PaletteEntry
  deriving DecidableEq, Repr

/-- Parse one palette entry (parse_palette_entry): a 16-bit flag word whose
bit 0 is HAS_NAME, a 4-byte color, and a name only when the flag is set. -/
def parse_palette_entry (input : List Nat) : ParseResult PaletteEntry :=
  (word input).bind fun (i1, flags) =>
  (parse_color i1).bind fun (i2, color) =>
  if flags % 2 = 1 then
    (parse_string i2).map fun (i3, name) => (i3, ⟨color, some name⟩)
  else
    .ok (i2, ⟨color, none⟩)

/-- Parse a palette chunk (parse_palette_chunk): the declared size, the
first color index verified to be below the size, the last color index
verified (in this order, with short-circuiting as in the Rust source) to be
at most the size, at least the first index, and to satisfy
last - first + 1 == size in u32 arithmetic; then 8 reserved bytes and
size entries.  The verify failures carry the palette-range error. -/
def parse_palette_chunk (input : List Nat) : ParseResult PaletteChunk :=
  (dword input).bind fun (i1, palette_size) =>
  (dword i1).bind fun (i2, first_color_index) =>
  if first_color_index < palette_size then
    (dword i2).bind fun (i3, last_ind) =>
    if last_ind ≤ palette_size ∧ first_color_index ≤ last_ind ∧
        (last_ind - first_color_index + 1) % 4294967296 = palette_size then
      (takeP 8 i3).bind fun (i4, _) =>
      (countParse parse_palette_entry palette_size i4).map fun (i5, entries) =>
      (i5, ⟨first_color_index, entries⟩)
    else .error .invalidPaletteRange
  else .error .invalidPaletteRange

/-- A minimal well-formed palette chunk body for given size/first/last
fields: the three dwords, 8 reserved zero bytes, and size entries each
consisting of a zero flag word and a zero color (6 zero bytes). -/
def paletteChunkBytes (size first last : Nat) : List Nat :=
  le32 size ++ (le32 first ++ (le32 last ++
    (List.replicate 8 0 ++ List.replicate (6 * size) 0)))

theorem dword_le32 (x : Nat) (hx : x < 4294967296) (rest : List Nat) :
    dword (le32 x ++ rest) = .ok (rest, x) := by
  simp only [le32, List.cons_append, List.nil_append, dword, Except.ok.injEq, Prod.mk.injEq,
    true_and]
  omega

theorem takeP_exact (l r : List Nat) : takeP l.length (l ++ r) = .ok (r, l) := by
  simp [takeP]

theorem countParse_zero_entries (k : Nat) (rest : List Nat) :
    countParse parse_palette_entry k (List.replicate (6 * k) 0 ++ rest) =
      .ok (rest, List.replicate k (⟨Color.zero, none⟩ : PaletteEntry)) := by
  induction k with
  | zero => simp [countParse]
  | succ n ih =>
      have h6 : 6 * (n + 1) = 6 + 6 * n := by ring
      rw [h6, List.replicate_add, List.append_assoc]
      show countParse parse_palette_entry (n + 1)
        (0 :: 0 :: 0 :: 0 :: 0 :: 0 :: (List.replicate (6 * n) 0 ++ rest)) = _
      simp only [countParse, parse_palette_entry, word, parse_color, Except.bind]
      norm_num
      rw [ih]
      simp [Except.map, Color.zero, List.replicate_succ]

/-- C2 counterexample: with declared size 3, first index 2 and last index 4
the three relations stated by the claim all hold (2 < 3, 4 ≥ 2 and
4 - 2 + 1 = 3), yet parse_palette_chunk rejects the chunk with the
palette-range error, because the code additionally requires
last_index ≤ size. -/
theorem c2_palette_extra_constraint_counterexample :
    ((2 : Nat) < 3 ∧ (4 : Nat) ≥ 2 ∧ (4 : Nat) - 2 + 1 = 3) ∧
      parse_palette_chunk (paletteChunkBytes 3 2 4) = .error .invalidPaletteRange := by
  constructor
  · decide
  · decide

/-- C2 (amended): parse_palette_chunk accepts a palette chunk if and only if
first_index < size, last_index ≤ size, last_index ≥ first_index and
last_index - first_index + 1 == size (computed in u32 arithmetic); any
violation fails with the palette-range error.  The fourth relation
(last_index ≤ size) is the constraint the original claim omitted. -/
theorem c2_palette_accept_iff (size first last : Nat)
    (hs : size < 4294967296) (hf : first < 4294967296) (hl : last < 4294967296) :
    (parse_palette_chunk (paletteChunkBytes size first last)
        = .ok ([], ⟨first, List.replicate size (⟨Color.zero, none⟩ : PaletteEntry)⟩)
      ↔ first < size ∧ last ≤ size ∧ first ≤ last ∧
          (last - first + 1) % 4294967296 = size)
    ∧ (¬ (first < size ∧ last ≤ size ∧ first ≤ last ∧
          (last - first + 1) % 4294967296 = size)
      → parse_palette_chunk (paletteChunkBytes size first last)
        = .error .invalidPaletteRange) := by
  have hrest :
      parse_palette_chunk (paletteChunkBytes size first last)
        = if first < size then
            if last ≤ size ∧ first ≤ last ∧ (last - first + 1) % 4294967296 = size then
              .ok ([], ⟨first, List.replicate size (⟨Color.zero, none⟩ : PaletteEntry)⟩)
            else .error .invalidPaletteRange
          else .error .invalidPaletteRange := by
    unfold parse_palette_chunk paletteChunkBytes
    have ht : takeP 8 (List.replicate 8 0 ++ List.replicate (6 * size) 0)
        = .ok (List.replicate (6 * size) 0, List.replicate 8 0) := by
      have h := takeP_exact (List.replicate 8 (0 : Nat)) (List.replicate (6 * size) 0)
      simpa using h
    have hc := countParse_zero_entries size []
    rw [List.append_nil] at hc
    simp only [dword_le32 size hs, dword_le32 first hf, dword_le32 last hl, ht, hc,
      Except.bind, Except.map]
  rw [hrest]
  by_cases h1 : first < size <;>
    by_cases h2 : last ≤ size ∧ first ≤ last ∧ (last - first + 1) % 4294967296 = size <;>
      simp [h1, h2]

/-- C2 witness: size 3, first index 0, last index 2 satisfies all four
relations and the chunk is accepted. -/
theorem c2_palette_accept_iff_witness :
    parse_palette_chunk (paletteChunkBytes 3 0 2)
      = .ok ([], ⟨0, List.replicate 3 (⟨Color.zero, none⟩ : PaletteEntry)⟩) :=
  (c2_palette_accept_iff 3 0 2 (by decide) (by decide) (by decide)).1.mpr (by decide)

/-! ## Exact model of the f32 arithmetic used by blend_channel

The blend engine works in f32.  All values reached by the claims stay far
inside the finite normal/subnormal range of binary32, so the model below
implements IEEE-754 binary32 rounding (round to nearest, ties to even,
precision 24, minimum subnormal exponent -149) over exact fractions,
without the overflow-to-infinity case that the blend arithmetic cannot
reach.  Fractions are kept unnormalized (no gcd) so that every operation
is a plain integer computation; all operations below produce and expect a
positive denominator. -/

/-- An exact fraction num/den.  Denominators are kept positive by all
constructions below; fractions are not reduced. -/
structure Frac where
  num : Int
  den : Nat
  deriving DecidableEq, Repr

/-- The fraction n/1. -/
def Frac.ofInt (n : Int) : Frac := ⟨n, 1⟩

/-- The fraction n/1 for a natural n. -/
def Frac.ofNat (n : Nat) : Frac := ⟨(n : Int), 1⟩

def Frac.add (a b : Frac) : Frac := ⟨a.num * b.den + b.num * a.den, a.den * b.den⟩

def Frac.sub (a b : Frac) : Frac := ⟨a.num * b.den - b.num * a.den, a.den * b.den⟩

def Frac.mul (a b : Frac) : Frac := ⟨a.num * b.num, a.den * b.den⟩

/-- Division; never applied to a zero divisor by the blend arithmetic. -/
def Frac.div (a b : Frac) : Frac :=
  ⟨a.num * b.den * (if b.num < 0 then -1 else 1), a.den * b.num.natAbs⟩

def Frac.le (a b : Frac) : Prop := a.num * b.den ≤ b.num * a.den

def Frac.lt (a b : Frac) : Prop := a.num * b.den < b.num * a.den

instance (a b : Frac) : Decidable (a.le b) := by unfold Frac.le; infer_instance

instance (a b : Frac) : Decidable (a.lt b) := by unfold Frac.lt; infer_instance

def Frac.neg (a : Frac) : Frac := ⟨-a.num, a.den⟩

def Frac.abs (a : Frac) : Frac := ⟨|a.num|, a.den⟩

/-- Floor of a fraction, as an integer (flooring division). -/
def Frac.floor (a : Frac) : Int := Int.fdiv a.num a.den

/-- Fuelled bit-length helper. -/
def natBitsAux : Nat → Nat → Nat
  | 0, _ => 0
  | fuel + 1, n => if n = 0 then 0 else natBitsAux fuel (n / 2) + 1

/-- Number of binary digits of a natural number (correct below 2^512,
far beyond every quantity the blend arithmetic can produce). -/
def natBits (n : Nat) : Nat := natBitsAux 512 n

/-- The fraction 2^e for an integer exponent. -/
def qpow2 : Int → Frac
  | .ofNat n => ⟨(2 ^ n : Nat), 1⟩
  | .negSucc n => ⟨1, 2 ^ (n + 1)⟩

/-- Floor of the base-2 logarithm of a positive fraction.  The bit-length
difference of numerator and denominator is within one of the answer and
a single comparison corrects it. -/
def qlog2 (q : Frac) : Int :=
  let d : Int := (natBits q.num.toNat : Int) - (natBits q.den : Int)
  if (qpow2 d).le q then d else d - 1

/-- Round a fraction to an integer, to nearest with ties to even. -/
def rne (q : Frac) : Int :=
  let f := q.floor
  let r := q.sub (.ofInt f)
  if r.lt ⟨1, 2⟩ then f
  else if Frac.lt ⟨1, 2⟩ r then f + 1
  else if f % 2 = 0 then f else f + 1

/-- Round a fraction to the nearest IEEE-754 binary32 value
(ties to even), as an exact fraction. -/
def roundF32 (q : Frac) : Frac :=
  if q.num = 0 then ⟨0, 1⟩
  else
    let s := q.abs
    let e := qlog2 s
    let p := max (e - 23) (-149)
    let m := rne (s.div (qpow2 p))
    let r := (Frac.ofInt m).mul (qpow2 p)
    if q.num < 0 then r.neg else r

/-- f32 addition. -/
def addF32 (a b : Frac) : Frac := roundF32 (a.add b)

/-- f32 subtraction. -/
def subF32 (a b : Frac) : Frac := roundF32 (a.sub b)

/-- f32 multiplication. -/
def mulF32 (a b : Frac) : Frac := roundF32 (a.mul b)

/-- f32 division. -/
def divF32 (a b : Frac) : Frac := roundF32 (a.div b)

/-- f32 min (no NaNs arise in the blend arithmetic). -/
def minF32 (a b : Frac) : Frac := if a.lt b then a else b

/-- f32 max (no NaNs arise in the blend arithmetic). -/
def maxF32 (a b : Frac) : Frac := if a.lt b then b else a

/-- f32 clamp (Rust clamp: lower bound first, then upper bound);
comparison is exact, so no rounding is involved. -/
def clampF32 (q lo hi : Frac) : Frac := if q.lt lo then lo else if hi.lt q then hi else q

/-- Rust f32::round: round half away from zero (exact on f32). -/
def rustRound (q : Frac) : Int :=
  if q.lt ⟨0, 1⟩ then -(((q.neg).add ⟨1, 2⟩).floor) else (q.add ⟨1, 2⟩).floor

/-- Rust `as u8` cast of an integral f32: saturating to 0..=255. -/
def intAsU8 (i : Int) : Nat := if i < 0 then 0 else if 255 < i then 255 else i.toNat

/-! ## Blend modes and blend_channel (src/make_image.rs) -/

/-- Per-layer blend modes.  The Rust enum (binary/blend_mode.rs, absent
from the provided sources) has further named modes; every mode that
blend_channel does not implement falls into the catch-all arm, represented
here by the single constructor `other`. -/
inductive BlendMode where
  | normal
  | multiply
  | screen
  | darken
  | lighten
  | addition
  | subtract
  | difference
  | overlay
  | other (raw : Nat)
  deriving DecidableEq, Repr

/-- blend_channel (src/make_image.rs lines 24-51): normalize the three u8
inputs to [0,1] f32, apply the blend function selected by the mode,
interpolate with the effective alpha, clamp to [0,1], scale by 255 and
round to nearest, returning a u8.  Every f32 operation rounds through
roundF32 exactly as the hardware would. -/
def blend_channel (first second alpha : Nat) (blend_mode : BlendMode) : Nat :=
  let one : Frac := ⟨1, 1⟩
  let a := divF32 (.ofNat alpha) (.ofNat 255)
  let f := divF32 (.ofNat first) (.ofNat 255)
  let s := divF32 (.ofNat second) (.ofNat 255)
  let result :=
    match blend_mode with
    | .normal => s
    | .multiply => mulF32 f s
    | .screen => subF32 one (mulF32 (subF32 one f) (subF32 one s))
    | .darken => minF32 f s
    | .lighten => maxF32 f s
    | .addition => minF32 (addF32 f s) one
    | .subtract => maxF32 (subF32 f s) ⟨0, 1⟩
    | .difference => (subF32 f s).abs
    | .overlay =>
        if f.lt ⟨1, 2⟩ then mulF32 (mulF32 ⟨2, 1⟩ f) s
        else subF32 one (mulF32 (mulF32 ⟨2, 1⟩ (subF32 one f)) (subF32 one s))
    | .other _ => f
  let blended := addF32 (mulF32 f (subF32 one a)) (mulF32 result a)
  intAsU8 (rustRound (mulF32 (clampF32 blended ⟨0, 1⟩ one) (.ofNat 255)))

/-- Effective alpha of a cel pixel under a layer opacity
(cel alpha * layer opacity / 255, truncating integer division, as in the
compositing loops of src/make_image.rs). -/
def total_alpha (cel_alpha opacity : Nat) : Nat := cel_alpha * opacity / 255

theorem mulF32_zero_right (x : Frac) : mulF32 x ⟨0, 1⟩ = ⟨0, 1⟩ := by
  simp [mulF32, Frac.mul, roundF32]

theorem addF32_zero_left (y : Frac) : addF32 ⟨0, 1⟩ y = roundF32 y := by
  cases y with
  | mk n d => simp [addF32, Frac.add]

/-- The value blend_channel computes in Normal mode at effective alpha 255,
after the background contribution has been cancelled symbolically. -/
def normalChain (s : Nat) : Nat :=
  intAsU8 (rustRound (mulF32 (clampF32 (roundF32 (mulF32 (divF32 (.ofNat s) (.ofNat 255))
    ⟨8388608, 8388608⟩)) ⟨0, 1⟩ ⟨1, 1⟩) (.ofNat 255)))

set_option maxRecDepth 4000000 in
theorem normalChain_id : ∀ s : Fin 256, normalChain (s : Nat) = (s : Nat) := by decide

/-- C8: for every background channel value and every cel channel value,
blending with mode Normal, layer opacity 255 and a fully opaque cel pixel
(so the effective alpha cel_alpha * opacity / 255 equals 255) returns
exactly the cel pixel's own channel value, under the exact f32 semantics of
blend_channel (normalize, blend, interpolate, clamp, scale, round to
nearest). -/
theorem c8_blend_normal_opaque (bg s : Fin 256) :
    blend_channel bg s (total_alpha 255 255) .normal = s := by
  have hta : total_alpha 255 255 = 255 := rfl
  rw [hta]
  unfold blend_channel
  have ha : divF32 (.ofNat 255) (.ofNat 255) = ⟨8388608, 8388608⟩ := by decide
  have hsub : subF32 ⟨1, 1⟩ ⟨8388608, 8388608⟩ = ⟨0, 1⟩ := by decide
  simp only [ha, hsub, mulF32_zero_right, addF32_zero_left]
  show normalChain (s : Nat) = (s : Nat)
  exact normalChain_id s

/-! ## Chunk data model (binary/chunks) -/

/-- Animation directions of a tag
(enum AnimationDirection in binary/chunks/tags.rs). -/
inductive AnimationDirection where
  | forward
  | reverse
  | pingPong
  | pingPongReverse
  | unknown (raw : Nat)
  deriving DecidableEq, Repr

/-- Expansion of the derived strum FromRepr implementation on
AnimationDirection: each variant is matched by its positional discriminant
(Forward = 0 .. Unknown = 4), and a variant with fields is constructed with
Default::default() for its fields, so discriminant 4 yields Unknown(0). -/
def AnimationDirection.from_repr : Nat → Option AnimationDirection
  | 0 => some .forward
  | 1 => some .reverse
  | 2 => some .pingPong
  | 3 => some .pingPongReverse
  | 4 => some (.unknown 0)
  | _ + 5 => none

/-- From<Byte> for AnimationDirection (binary/chunks/tags.rs lines 44-48):
from_repr of the byte, defaulting to Unknown(byte). -/
def AnimationDirection.fromByte (byte : Nat) : AnimationDirection :=
  (AnimationDirection.from_repr byte).getD (.unknown byte)

/-- A parsed tag (struct TagChunk in binary/chunks/tags.rs); the name is
kept as its raw byte list in this model. -/
structure TagChunk where
  frames : Nat × Nat
  animation_direction : AnimationDirection
  animation_repeat : Nat
  name : List Nat
  deriving DecidableEq, Repr

/-- parse_tag (binary/chunks/tags.rs lines 57-82): from/to frame words with
from ≤ to enforced (InvalidFrameRange otherwise), the direction byte mapped
through From<Byte>, the repeat word, 6 reserved bytes, the 3-byte
deprecated color (read and discarded), one reserved byte, and the
length-prefixed name. -/
def parse_tag (input : List Nat) : ParseResult TagChunk :=
  (word input).bind fun (i1, from_frame) =>
  (word i1).bind fun (i2, to_frame) =>
  if from_frame > to_frame then .error (.invalidFrameRange from_frame to_frame)
  else
    (byteP i2).bind fun (i3, animation_direction) =>
    let animation_direction := AnimationDirection.fromByte animation_direction
    (word i3).bind fun (i4, animation_repeat) =>
    (takeP 6 i4).bind fun (i5, _) =>
    (takeP 3 i5).bind fun (i6, _color) =>
    (byteP i6).bind fun (i7, _) =>
    (parse_string i7).map fun (i8, name) =>
    (i8, ⟨(from_frame, to_frame), animation_direction, animation_repeat, name⟩)

/-- The byte encoding of a tag with the given fields and an empty name. -/
def tagBytes (from_frame to_frame direction repeat_count : Nat) : List Nat :=
  le16 from_frame ++ (le16 to_frame ++ ([direction] ++ (le16 repeat_count ++
    (List.replicate 6 0 ++ (List.replicate 3 0 ++ ([0] ++ le16 0))))))

/-- A user data chunk (binary/chunks/user_data.rs): the optional text
(Lean strings model the decoded Rust strings) and the optional color.
The Rust Default derive gives none for both. -/
structure UserDataChunk where
  text : Option String := none
  color : Option Color := none
  deriving DecidableEq, Repr

instance : Inhabited UserDataChunk := ⟨{}⟩

/-- Layer types (enum LayerType in binary/chunks/layer.rs, a file not
among the provided sources; the three named types are listed in spec
section 4.3 and both loaders match on them). -/
inductive LayerType where
  | normal
  | group
  | tilemap
  | unknown (raw : Nat)
  deriving DecidableEq, Repr

/-- A layer chunk.  The struct (binary/chunks/layer.rs) is not among the
provided sources; its fields follow spec section 4.3 and the accesses made
by the loaders and the compositor: flags (bit 0 = visible), layer type,
child level, blend mode, opacity, name, and the tileset index present only
for tilemap layers. -/
structure LayerChunk where
  flags : Nat := 1
  layer_type : LayerType := .normal
  child_level : Nat := 0
  blend_mode : BlendMode := .normal
  opacity : Nat := 255
  name : String := ""
  tileset_index : Option Nat := none
  deriving DecidableEq, Repr

/-- An image carried by a cel (struct Image in binary/image.rs): pixel
dimensions, the raw or zlib-compressed byte data, and the compressed
flag. -/
structure Image where
  width : Nat
  height : Nat
  data : List Nat
  compressed : Bool
  deriving DecidableEq, Repr

/-- Cel content kinds (enum CelContent in binary/chunks/cel.rs, per the
match arms of both loaders and spec section 4.4). -/
inductive CelContent where
  | image (img : Image)
  | linkedCel (frame_position : Nat)
  | compressedTilemap
  | unknown (raw : Nat)
  deriving DecidableEq, Repr

/-- A cel chunk (struct CelChunk in binary/chunks/cel.rs, per the accesses
made by the loaders and spec section 4.4): owning layer index, signed
16-bit placement, opacity, signed z-index, and the content. -/
structure CelChunk where
  layer_index : Nat
  x : Int := 0
  y : Int := 0
  opacity : Nat := 255
  z_index : Int := 0
  content : CelContent
  deriving DecidableEq, Repr

/-- A color profile chunk; the loader only stores it, so the payload is
reduced to a tag of the profile kind. -/
structure ColorProfileChunk where
  raw : Nat := 0
  deriving DecidableEq, Repr

/-- Tiles of a tileset (enum TilesetTiles in binary/chunks/tileset.rs). -/
inductive TilesetTiles where
  | compressedTiles (data : List Nat)
  | tilesetExternalFile (external_file_id tileset_id : Nat)
  deriving DecidableEq, Repr

/-- A tileset chunk (struct TilesetChunk in binary/chunks/tileset.rs). -/
structure TilesetChunk where
  id : Nat
  flags : Nat
  number_of_tiles : Nat
  width : Nat
  height : Nat
  base_index : Int
  name : List Nat
  tiles : TilesetTiles
  deriving DecidableEq, Repr

/-- The chunk sum type (enum Chunk in binary/chunk.rs, per the match arms
of both loaders).  Chunks whose payload the loader ignores entirely
(slices, external files, cel-extra, the legacy palettes, masks, paths and
unsupported chunks) are modelled without their payloads. -/
inductive Chunk where
  | colorProfile (profile : ColorProfileChunk)
  | palette (chunk : PaletteChunk)
  | layer (chunk : LayerChunk)
  | tileset (chunk : TilesetChunk)
  | cel (chunk : CelChunk)
  | tags (tags : List TagChunk)
  | slice
  | externalFiles
  | userData (chunk : UserDataChunk)
  | celExtra
  | palette0004
  | palette0011
  | mask
  | path
  | unsupported
  deriving DecidableEq, Repr

/-- Chunk::is_user_data. -/
def Chunk.is_user_data : Chunk → Bool
  | .userData _ => true
  | _ => false

/-- A raw frame (struct RawFrame in binary/raw_frame.rs): duration in
milliseconds plus the frame's chunk list. -/
structure RawFrame where
  duration : Nat
  chunks : List Chunk
  deriving DecidableEq, Repr

/-- Color depths (enum ColorDepth in binary/color_depth.rs, a file not
among the provided sources; the four variants appear in both loaders and
spec section 3). -/
inductive ColorDepth where
  | rgba
  | grayscale
  | indexed
  | unknown (raw : Nat)
  deriving DecidableEq, Repr

/-- Debug representation of a color depth, as derived in Rust. -/
def ColorDepth.repr : ColorDepth → String
  | .rgba => "Rgba"
  | .grayscale => "Grayscale"
  | .indexed => "Indexed"
  | .unknown n => "Unknown(" ++ Nat.repr n ++ ")"

/-- The file header (struct Header in binary/header.rs, reduced to the
fields the loaders read: canvas size and color depth). -/
structure Header where
  width : Nat
  height : Nat
  color_depth : ColorDepth
  deriving DecidableEq, Repr

/-- A raw file: header plus frames (struct RawFile in binary/raw_file.rs). -/
structure RawFile where
  header : Header
  frames : List RawFrame
  deriving DecidableEq, Repr

/-! ## Frame framing (binary/raw_frame.rs) -/

/-- dword_size.  Modelled from the spec: scalars.rs is not among the
provided sources; dword_size reads the 4-byte little-endian size field and
returns the error it is handed (here InvalidFrameSize) when the input is
too short.  Validation beyond reading the field is not visible in the
provided sources. -/
def dword_size (input : List Nat) : ParseResult Nat :=
  match dword input with
  | .ok r => .ok r
  | .error _ => .error .invalidFrameSize

/-- nom tag combinator: match an exact byte prefix, failing with a tag
error otherwise. -/
def tagP (t : List Nat) (input : List Nat) : ParseResult (List Nat) :=
  (takeP t.length input).bind fun x =>
    if x.2 = t then .ok x else .error .nomTag

/-- parse_rawframe (binary/raw_frame.rs lines 38-49), parameterized by the
chunk-dispatch parser parse_chunks (binary/chunk.rs, not among the provided
sources): read the frame size (which, per the FIXME in the source, is
reduced by 4 in wrapping u32 arithmetic), slice the frame body, check the
0xF1FA magic, read the legacy 16-bit chunk count, the duration, 2 reserved
bytes, then the 32-bit chunk count which shadows the legacy one, and run
the chunk dispatch with that count.  Parser results are threaded as
(remaining input, value) pairs. -/
def parse_rawframe (parse_chunks : List Nat → Nat → ParseResult (List Chunk))
    (input : List Nat) : ParseResult RawFrame :=
  (dword_size input).bind fun s =>
  (takeP ((s.2 + 4294967296 - 4) % 4294967296) s.1).bind fun fr =>
  (tagP [0xFA, 0xF1] fr.2).bind fun m =>
  (word m.1).bind fun legacy_count =>
  (word legacy_count.1).bind fun dur =>
  (takeP 2 dur.1).bind fun r2 =>
  (dword r2.1).bind fun cnt =>
  (parse_chunks cnt.1 cnt.2).map fun ch => (fr.1, ⟨dur.2, ch.2⟩)

/-- The byte encoding of a frame with the given legacy 16-bit chunk count,
32-bit chunk count, duration and chunk body bytes. -/
def frameBytes (legacy count32 duration : Nat) (body : List Nat) : List Nat :=
  le32 (16 + body.length) ++ ([0xFA, 0xF1] ++ (le16 legacy ++ (le16 duration ++
    ([0, 0] ++ (le32 count32 ++ body)))))

theorem except_bind_ok {ε α β : Type} (a : α) (f : α → Except ε β) :
    (Except.ok a : Except ε α).bind f = f a := rfl

theorem word_le16 (x : Nat) (hx : x < 65536) (rest : List Nat) :
    word (le16 x ++ rest) = .ok (rest, x) := by
  simp only [le16, List.cons_append, List.nil_append, word, Except.ok.injEq, Prod.mk.injEq,
    true_and]
  omega

theorem takeP_of_length (n : Nat) (l r : List Nat) (h : l.length = n) :
    takeP n (l ++ r) = .ok (r, l) := by
  subst h; exact takeP_exact l r

theorem tagP_exact (t r : List Nat) : tagP t (t ++ r) = .ok (r, t) := by
  unfold tagP
  rw [takeP_of_length t.length t r rfl, except_bind_ok]
  simp

theorem dword_size_le32 (x : Nat) (hx : x < 4294967296) (rest : List Nat) :
    dword_size (le32 x ++ rest) = .ok (rest, x) := by
  unfold dword_size
  rw [dword_le32 x hx]

/-- C9 counterexample: the direction byte 4 decodes to Unknown(0), not to
Unknown(4): strum's FromRepr matches discriminant 4 against the Unknown
variant itself and fills its field with the u8 default 0, so the raw byte
is lost.  Shown both on From<Byte> directly and through parse_tag on a
complete tag record. -/
theorem c9_direction_byte4_counterexample :
    AnimationDirection.fromByte 4 = .unknown 0 ∧
      AnimationDirection.fromByte 4 ≠ .unknown 4 ∧
      parse_tag (tagBytes 0 0 4 0) = .ok ([], ⟨(0, 0), .unknown 0, 0, []⟩) := by
  refine ⟨by decide, by decide, by decide⟩

/-- C9 (amended): parse_tag maps direction bytes 0, 1, 2, 3 to the four
named directions, byte 4 to Unknown(0) (the raw value is replaced by the
u8 default through strum's FromRepr), and every byte from 5 up to
Unknown(byte); the parse never fails because of the direction byte: for
every direction byte an otherwise well-formed tag record parses
successfully with direction From(byte). -/
theorem c9_parse_tag_direction_amended (ff tt b rep : Nat)
    (hff : ff < 65536) (htt : tt < 65536) (hrep : rep < 65536) (hle : ff ≤ tt) :
    parse_tag (tagBytes ff tt b rep)
        = .ok ([], ⟨(ff, tt), .fromByte b, rep, []⟩)
      ∧ AnimationDirection.fromByte 0 = .forward
      ∧ AnimationDirection.fromByte 1 = .reverse
      ∧ AnimationDirection.fromByte 2 = .pingPong
      ∧ AnimationDirection.fromByte 3 = .pingPongReverse
      ∧ AnimationDirection.fromByte 4 = .unknown 0
      ∧ ∀ b2, 5 ≤ b2 → AnimationDirection.fromByte b2 = .unknown b2 := by
  refine ⟨?_, by decide, by decide, by decide, by decide, by decide, ?_⟩
  · unfold parse_tag tagBytes
    simp only [word_le16 ff hff, word_le16 tt htt, Except.bind]
    rw [if_neg (by omega : ¬ ff > tt)]
    simp only [List.cons_append, List.nil_append, byteP, Except.bind]
    simp only [word_le16 rep hrep, Except.bind]
    simp [takeP, parse_string, word, byteP, le16, Except.bind, Except.map, List.replicate]
  · intro b2 hb2
    obtain ⟨k, rfl⟩ : ∃ k, b2 = k + 5 := ⟨b2 - 5, by omega⟩
    rfl

/-- C9 witness: a tag record over frames 1..=2 with direction byte 4 and
repeat count 0 parses, with direction Unknown(0). -/
theorem c9_parse_tag_direction_amended_witness :
    parse_tag (tagBytes 1 2 4 0) = .ok ([], ⟨(1, 2), .fromByte 4, 0, []⟩)
      ∧ AnimationDirection.fromByte 4 = .unknown 0 :=
  ⟨(c9_parse_tag_direction_amended 1 2 4 0 (by decide) (by decide) (by decide)
      (by decide)).1,
    (c9_parse_tag_direction_amended 1 2 4 0 (by decide) (by decide) (by decide)
      (by decide)).2.2.2.2.2.1⟩

/-- C10: parse_rawframe hands the chunk-dispatch loop the 32-bit chunk
count, for every value of the legacy 16-bit count, every 32-bit count
(non-zero or not), every duration and every chunk body: the result is
exactly the dispatch parser applied to the body with the 32-bit count,
with the frame's remaining input and duration threaded through. -/
theorem c10_chunk_count_32bit (pc : List Nat → Nat → ParseResult (List Chunk))
    (legacy count32 duration : Nat) (body extra : List Nat)
    (hl : legacy < 65536) (hc : count32 < 4294967296) (hd : duration < 65536)
    (hb : 16 + body.length < 4294967296) :
    parse_rawframe pc (frameBytes legacy count32 duration body ++ extra)
      = (pc body count32).map fun ch => (extra, ⟨duration, ch.2⟩) := by
  have hwrap : (16 + body.length + 4294967296 - 4) % 4294967296 = 12 + body.length := by
    omega
  have hlen : ([0xFA, 0xF1] ++ (le16 legacy ++ (le16 duration ++
      ([0, 0] ++ (le32 count32 ++ body))))).length = 12 + body.length := by
    simp [le16, le32]; omega
  unfold parse_rawframe frameBytes
  rw [List.append_assoc, dword_size_le32 (16 + body.length) hb, except_bind_ok]
  show (takeP ((16 + body.length + 4294967296 - 4) % 4294967296) _).bind _ = _
  rw [hwrap, takeP_of_length (12 + body.length) _ extra hlen, except_bind_ok]
  show (tagP [0xFA, 0xF1] _).bind _ = _
  rw [tagP_exact, except_bind_ok]
  show (word _).bind _ = _
  rw [word_le16 legacy hl, except_bind_ok]
  show (word _).bind _ = _
  rw [word_le16 duration hd, except_bind_ok]
  show (takeP 2 _).bind _ = _
  rw [takeP_of_length 2 [0, 0] _ (by simp), except_bind_ok]
  show (dword _).bind _ = _
  rw [dword_le32 count32 hc, except_bind_ok]

/-- C10 witness: with legacy count 7 but 32-bit count 2, the dispatch
parser receives 2. -/
theorem c10_chunk_count_32bit_witness :
    parse_rawframe (fun i n => .ok (i, List.replicate n .path))
      (frameBytes 7 2 100 [5, 6, 7] ++ [9])
      = ((fun (i : List Nat) (n : Nat) =>
            (.ok (i, List.replicate n Chunk.path) : ParseResult (List Chunk))) [5, 6, 7] 2).map
          fun ch => ([9], ⟨100, ch.2⟩) :=
  c10_chunk_count_32bit (fun i n => .ok (i, List.replicate n .path)) 7 2 100 [5, 6, 7] [9]
    (by decide) (by decide) (by decide) (by decide)

/-! ## Loader (src/loader.rs)

The loader can finish in three ways, which the model keeps distinct: an
Ok value, an Err of the loader error type, or a Rust panic (todo!(),
HashMap indexing with an absent key, or an out-of-bounds slice index). -/

/-- Outcome of Rust code that returns Result but may also panic. -/
inductive RRes (ε α : Type) where
  | ok (a : α)
  | err (e : ε)
  | panicked
  deriving DecidableEq, Repr

/-- Monadic bind on RRes (the ? operator plus panic propagation). -/
def RRes.bind : RRes ε α → (α → RRes ε β) → RRes ε β
  | .ok a, f => f a
  | .err e, _ => .err e
  | .panicked, _ => .panicked

/-- enum LoadSpriteError (src/loader.rs lines 14-24). -/
inductive LoadSpriteError where
  | Parse (message : String)
  | MissingTag (tag : String)
  | MissingLayer (layer : String)
  | FrameIndexOutOfRange (index : Nat)
  deriving DecidableEq, Repr

/-- Semantic layer parameters parsed from user-data text
(enum LayerParameter in src/wrappers.rs, serialized in snake case). -/
inductive LayerParameter where
  | hitbox
  | invisible
  deriving DecidableEq, Repr

/-- The strum EnumString FromStr for LayerParameter (snake_case), on the
character list of the candidate string. -/
def LayerParameter.fromChars : List Char → Option LayerParameter := fun s =>
  if s = ['h', 'i', 't', 'b', 'o', 'x'] then some .hitbox
  else if s = ['i', 'n', 'v', 'i', 's', 'i', 'b', 'l', 'e'] then some .invisible
  else none

/-- Semantic tag parameters (enum TagParameter in src/wrappers.rs);
the enum has no variants yet. -/
inductive TagParameter where
  deriving DecidableEq, Repr

/-- The strum EnumString FromStr for TagParameter (no variants, so
parsing always fails). -/
def TagParameter.fromChars : List Char → Option TagParameter := fun _ => none

/-- Rust str::split at commas, over character lists. -/
def splitOnCommaAux : List Char → List Char → List (List Char)
  | [], acc => [acc.reverse]
  | c :: cs, acc =>
      if c = ',' then acc.reverse :: splitOnCommaAux cs [] else splitOnCommaAux cs (c :: acc)

/-- Rust str::split at commas. -/
def splitOnComma (cs : List Char) : List (List Char) := splitOnCommaAux cs []

/-- ASCII whitespace (sufficient for the user-data keyword lists, which
are ASCII). -/
def isAsciiWhitespace (c : Char) : Bool := c = ' ' || c = '\t' || c = '\n' || c = '\r'

/-- Rust str::trim, over character lists. -/
def trimChars (cs : List Char) : List Char :=
  ((cs.dropWhile isAsciiWhitespace).reverse.dropWhile isAsciiWhitespace).reverse

/-- Rust char ASCII lowercasing. -/
def toLowerChar (c : Char) : Char :=
  if 'A' ≤ c ∧ c ≤ 'Z' then Char.ofNat (c.toNat + 32) else c

/-- UserDataChunk::parse_text_as_layer_parameters (src/wrappers.rs):
split the text on commas, trim, lowercase (ASCII), keep the pieces that
name a layer parameter, and pair each with an empty string.  The Rust
AHashMap target of collect is modelled as the association list itself;
only key membership is ever consulted. -/
def UserDataChunk.parse_text_as_layer_parameters (u : UserDataChunk) :
    List (LayerParameter × String) :=
  (((splitOnComma (u.text.getD "").data).map
      (fun s => (trimChars s).map toLowerChar)).filterMap
    LayerParameter.fromChars).map (fun p => (p, ""))

/-- UserDataChunk::parse_text_as_tag_parameters (src/wrappers.rs). -/
def UserDataChunk.parse_text_as_tag_parameters (u : UserDataChunk) :
    List (TagParameter × String) :=
  (((splitOnComma (u.text.getD "").data).map
      (fun s => (trimChars s).map toLowerChar)).filterMap
    TagParameter.fromChars).map (fun p => (p, ""))

/-- AHashMap::contains_key on the association-list model. -/
def containsParam (ps : List (LayerParameter × String)) (p : LayerParameter) : Bool :=
  ps.any (fun q => q.1 == p)

/-- struct Cel of src/wrappers.rs: the cel chunk, its trailing user data,
and the index of its image in the image store. -/
structure WCel where
  chunk : CelChunk
  user_data : UserDataChunk
  image_index : Nat
  deriving DecidableEq, Repr

/-- Rust as-cast from i16 to u32 (sign extension), as used by
Cel::x and Cel::y in src/wrappers.rs. -/
def u32_of_i16 (i : Int) : Nat := (i % 4294967296).toNat

/-- Cel::x (src/wrappers.rs). -/
def WCel.x (c : WCel) : Nat := u32_of_i16 c.chunk.x

/-- Cel::y (src/wrappers.rs). -/
def WCel.y (c : WCel) : Nat := u32_of_i16 c.chunk.y

/-- Cel::layer_index (src/wrappers.rs). -/
def WCel.layer_index (c : WCel) : Nat := c.chunk.layer_index

/-- struct Frame of src/wrappers.rs. -/
structure WFrame where
  duration : Nat
  cells : List WCel
  deriving DecidableEq, Repr

/-- struct Layer of src/wrappers.rs. -/
structure WLayer where
  chunk : LayerChunk
  user_data : UserDataChunk
  parameters : List (LayerParameter × String)
  deriving DecidableEq, Repr

/-- Layer::visible (src/wrappers.rs): flags bit 0. -/
def WLayer.visible (l : WLayer) : Bool := l.chunk.flags % 2 = 1

/-- struct Tag of src/wrappers.rs. -/
structure WTag where
  chunk : TagChunk
  user_data : UserDataChunk
  parameters : List (TagParameter × String)
  deriving DecidableEq, Repr

/-- The mutable state of AsepriteFile::new while folding the chunk lists
(src/loader.rs lines 45-56), including the (frame, layer) → image index
map used to resolve linked cels. -/
structure LoaderState where
  color_profile : Option ColorProfileChunk
  palette : List Color
  frames : List WFrame
  layers : List WLayer
  images : List Image
  tags : List WTag
  tilesets : List TilesetChunk
  image_map : List ((Nat × Nat) × Nat)
  deriving DecidableEq, Repr

/-- The empty initial loader state. -/
def initState : LoaderState := ⟨none, [], [], [], [], [], [], []⟩

/-- HashMap lookup on the association-list model of image_map (a later
insert shadows an earlier one by being consed in front). -/
def lookupMap (m : List ((Nat × Nat) × Nat)) (k : Nat × Nat) : Option Nat :=
  (m.find? (fun e => decide (e.1 = k))).map (·.2)

/-- Write palette entries at consecutive indices (the enumerate loop of
the Palette chunk arm, src/loader.rs lines 82-85). -/
def writePaletteEntries (colors : List Color) (i : Nat) : List PaletteEntry → List Color
  | [] => colors
  | e :: es => writePaletteEntries (colors.set i e.color) (i + 1) es

/-- The Palette chunk arm (src/loader.rs lines 72-86): grow the palette
with zeroed colors up to first_index + entries.len() if needed, then
overwrite the entries' range. -/
def applyPalette (colors : List Color) (pc : PaletteChunk) : List Color :=
  let req_len := pc.first_index + pc.entries.length
  let colors :=
    if colors.length < req_len then colors ++ List.replicate (req_len - colors.length) Color.zero
    else colors
  writePaletteEntries colors pc.first_index pc.entries

/-- frames.last_mut().unwrap().cells.push(cel): append a cel to the last
frame, or none (a panic) when there is no frame yet. -/
def pushCelLast : List WFrame → WCel → Option (List WFrame)
  | [], _ => none
  | [f], c => some [{ f with cells := f.cells ++ [c] }]
  | f :: g :: fs, c => (pushCelLast (g :: fs) c).map (f :: ·)

/-- LoaderState update for a Layer chunk (src/loader.rs lines 87-101). -/
def LoaderState.pushLayer (st : LoaderState) (chunk : LayerChunk)
    (user_data : UserDataChunk) : LoaderState :=
  { st with layers := st.layers ++
      [⟨chunk, user_data, user_data.parse_text_as_layer_parameters⟩] }

/-- LoaderState update for one tag of a Tags chunk
(src/loader.rs lines 146-157). -/
def LoaderState.pushTag (st : LoaderState) (chunk : TagChunk)
    (user_data : UserDataChunk) : LoaderState :=
  { st with tags := st.tags ++
      [⟨chunk, user_data, user_data.parse_text_as_tag_parameters⟩] }

/-- The Cel chunk arm (src/loader.rs lines 106-145): a direct image is
appended to the image store and recorded in the image map under
(current frame, layer); a linked cel is resolved by indexing the image map
(a Rust panic when absent); a compressed tilemap hits todo!() (a panic);
an unknown content kind returns a Parse error.  The cel is then pushed
onto the current frame. -/
def processCel (st : LoaderState) (chunk : CelChunk) (user_data : UserDataChunk) :
    RRes LoadSpriteError LoaderState :=
  match chunk.content with
  | .image img =>
      let image_index := st.images.length
      let st2 := { st with
        images := st.images ++ [img],
        image_map := ((st.frames.length - 1, chunk.layer_index), image_index) :: st.image_map }
      match pushCelLast st2.frames ⟨chunk, user_data, image_index⟩ with
      | some fs => .ok { st2 with frames := fs }
      | none => .panicked
  | .linkedCel fp =>
      match lookupMap st.image_map (fp, chunk.layer_index) with
      | some image_index =>
          match pushCelLast st.frames ⟨chunk, user_data, image_index⟩ with
          | some fs => .ok { st with frames := fs }
          | none => .panicked
      | none => .panicked
  | .compressedTilemap => .panicked
  | .unknown _ => .err (.Parse "CelContent has unknown type!")

/-- The per-tag fold of the Tags chunk arm (src/loader.rs lines 146-157):
each tag in order takes the next chunk as its user data exactly when that
chunk is a User Data chunk. -/
def processTags : LoaderState → List TagChunk → List Chunk → LoaderState × List Chunk
  | st, [], rest => (st, rest)
  | st, t :: ts, .userData u :: rest => processTags (st.pushTag t u) ts rest
  | st, t :: ts, rest => processTags (st.pushTag t {}) ts rest

/-- The chunk loop of AsepriteFile::new for one frame
(src/loader.rs lines 62-171): one chunk is consumed per iteration, and
after a Layer or Cel chunk (or each tag of a Tags chunk) the following
chunk is additionally consumed exactly when it is a User Data chunk
(next_if on the peekable iterator).  The fuel counts loop iterations;
the chunk-list length is always sufficient since every iteration consumes
at least one chunk. -/
def processAux : Nat → LoaderState → List Chunk → RRes LoadSpriteError LoaderState
  | _, st, [] => .ok st
  | 0, _, _ :: _ => .panicked
  | fuel + 1, st, chunk :: rest =>
    match chunk with
    | .colorProfile profile => processAux fuel { st with color_profile := some profile } rest
    | .palette pc => processAux fuel { st with palette := applyPalette st.palette pc } rest
    | .layer lc =>
        match rest with
        | .userData u :: rest2 => processAux fuel (st.pushLayer lc u) rest2
        | _ => processAux fuel (st.pushLayer lc {}) rest
    | .tileset t => processAux fuel { st with tilesets := st.tilesets ++ [t] } rest
    | .cel cc =>
        match rest with
        | .userData u :: rest2 => (processCel st cc u).bind fun st2 => processAux fuel st2 rest2
        | _ => (processCel st cc {}).bind fun st2 => processAux fuel st2 rest
    | .tags tc =>
        let p := processTags st tc rest
        processAux fuel p.1 p.2
    | _ => processAux fuel st rest

/-- The frame loop of AsepriteFile::new (src/loader.rs lines 57-172):
push an empty frame with the raw frame's duration, then fold its chunks. -/
def loadFrames : LoaderState → List RawFrame → RRes LoadSpriteError LoaderState
  | st, [] => .ok st
  | st, rf :: rest =>
      let st1 := { st with frames := st.frames ++ [⟨rf.duration, []⟩] }
      (processAux rf.chunks.length st1 rf.chunks).bind fun st2 => loadFrames st2 rest

/-- A decompressed RGBA image (the image::RgbaImage values held in
images_decompressed): pixel dimensions and the flat byte buffer, row by
row, 4 bytes per pixel. -/
structure RgbaImage where
  width : Nat
  height : Nat
  data : List Nat
  deriving DecidableEq, Repr

/-- image::RgbaImage::new: a zero-filled (fully transparent) buffer. -/
def RgbaImage.new (w h : Nat) : RgbaImage := ⟨w, h, List.replicate (w * h * 4) 0⟩

/-- Decompression of one stored image (src/loader.rs lines 180-202),
parameterized by the external zlib inflate routine (flate2): a compressed
image is inflated into the zero-initialized w*h*4 buffer (the decompressed
prefix is written, the rest stays zero; inflate failures become Parse
errors); an uncompressed image goes through RgbaImage::from_raw, which
requires the container to hold at least w*h*4 bytes. -/
def decompressImage (inflate : List Nat → Except String (List Nat)) (img : Image) :
    RRes LoadSpriteError RgbaImage :=
  if img.compressed then
    match inflate img.data with
    | .ok out =>
        let n := img.width * img.height * 4
        .ok ⟨img.width, img.height, out.take n ++ List.replicate (n - (out.take n).length) 0⟩
    | .error e => .err (.Parse ("failed to decompress: " ++ e))
  else
    if img.width * img.height * 4 ≤ img.data.length then .ok ⟨img.width, img.height, img.data⟩
    else .err (.Parse "image::RgbaImage::from_raw error")

/-- The collect over all stored images (src/loader.rs lines 181-204). -/
def decompressAll (inflate : List Nat → Except String (List Nat)) :
    List Image → RRes LoadSpriteError (List RgbaImage)
  | [] => .ok []
  | img :: rest =>
      (decompressImage inflate img).bind fun i =>
      (decompressAll inflate rest).bind fun is2 => .ok (i :: is2)

/-- struct AsepriteFile (src/loader.rs lines 26-42). -/
structure AsepriteFile where
  header : Header
  palette : List Color
  color_profile : ColorProfileChunk
  layers : List WLayer
  frames : List WFrame
  tags : List WTag
  images : List Image
  images_decompressed : List RgbaImage
  tilesets : List TilesetChunk
  deriving DecidableEq, Repr

/-- AsepriteFile::new (src/loader.rs lines 44-219): fold all frames'
chunks, require RGBA color depth, decompress the image store, and require
a color profile chunk. -/
def AsepriteFile.new (inflate : List Nat → Except String (List Nat)) (file : RawFile) :
    RRes LoadSpriteError AsepriteFile :=
  (loadFrames initState file.frames).bind fun st =>
  if file.header.color_depth ≠ .rgba then
    .err (.Parse ("Expecting color depth to be Rgba, not " ++
      ColorDepth.repr file.header.color_depth))
  else
    (decompressAll inflate st.images).bind fun imgs =>
    match st.color_profile with
    | some cp =>
        .ok ⟨file.header, st.palette, cp, st.layers, st.frames, st.tags, st.images, imgs,
          st.tilesets⟩
    | none => .err (.Parse "Color profile chunk not found")

def isImageCel (c : WCel) : Bool :=
  match c.chunk.content with
  | .image _ => true
  | _ => false

def countImageCels (fs : List WFrame) : Nat :=
  (fs.map (fun fr => (fr.cells.filter isImageCel).length)).sum

def MapInv (frames : List WFrame) (imap : List ((Nat × Nat) × Nat)) : Prop :=
  ∀ (f l i : Nat), lookupMap imap (f, l) = some i →
    ∃ (fr : WFrame) (c : WCel), frames[f]? = some fr ∧ c ∈ fr.cells ∧
      c.chunk.layer_index = l ∧ isImageCel c = true ∧ c.image_index = i

def LinkInv (frames : List WFrame) : Prop :=
  ∀ (f : Nat) (fr : WFrame), frames[f]? = some fr →
    ∀ (c : WCel), c ∈ fr.cells → ∀ (fp : Nat), c.chunk.content = .linkedCel fp →
      ∃ (fr2 : WFrame) (c2 : WCel), frames[fp]? = some fr2 ∧ c2 ∈ fr2.cells ∧
        c2.chunk.layer_index = c.chunk.layer_index ∧ isImageCel c2 = true ∧
        c2.image_index = c.image_index

def KindInv (frames : List WFrame) : Prop :=
  ∀ (f : Nat) (fr : WFrame), frames[f]? = some fr →
    ∀ (c : WCel), c ∈ fr.cells →
      isImageCel c = true ∨ ∃ (fp : Nat), c.chunk.content = .linkedCel fp

def Inv (frames : List WFrame) (images : List Image)
    (imap : List ((Nat × Nat) × Nat)) : Prop :=
  images.length = countImageCels frames ∧ MapInv frames imap ∧ LinkInv frames ∧ KindInv frames

theorem pushCelLast_decomp (fs : List WFrame) (c : WCel) (fs' : List WFrame)
    (h : pushCelLast fs c = some fs') :
    ∃ init lastF, fs = init ++ [lastF] ∧
      fs' = init ++ [{ lastF with cells := lastF.cells ++ [c] }] := by
  induction fs generalizing fs' with
  | nil => simp [pushCelLast] at h
  | cons f rest ih =>
      cases rest with
      | nil =>
          simp only [pushCelLast, Option.some.injEq] at h
          exact ⟨[], f, by simp, by simp [← h]⟩
      | cons g fs2 =>
          simp only [pushCelLast, Option.map_eq_some'] at h
          obtain ⟨fs3, h3, rfl⟩ := h
          obtain ⟨init, lastF, hdecomp, hres⟩ := ih fs3 h3
          exact ⟨f :: init, lastF, by simp [hdecomp], by simp [hres]⟩

theorem countImageCels_append (a b : List WFrame) :
    countImageCels (a ++ b) = countImageCels a + countImageCels b := by
  simp [countImageCels]

theorem get_append_one (init : List WFrame) (x : WFrame) (f : Nat) :
    (init ++ [x])[f]? =
      if f < init.length then init[f]? else if f = init.length then some x else none := by
  rw [List.getElem?_append]
  by_cases h1 : f < init.length
  · simp [h1]
  · rw [if_neg h1, if_neg h1]
    by_cases h2 : f = init.length
    · subst h2
      simp
    · rw [if_neg h2]
      have h3 : f - init.length ≥ 1 := by omega
      match hk : f - init.length, h3 with
      | k + 1, _ => simp

theorem mem_after_push (init : List WFrame) (lastF : WFrame) (c0 : WCel) (f : Nat)
    (fr : WFrame) (c : WCel)
    (h : (init ++ [lastF])[f]? = some fr) (hc : c ∈ fr.cells) :
    ∃ fr', (init ++ [{ lastF with cells := lastF.cells ++ [c0] }])[f]? = some fr'
      ∧ c ∈ fr'.cells := by
  rw [get_append_one] at h
  by_cases h1 : f < init.length
  · rw [if_pos h1] at h
    refine ⟨fr, ?_, hc⟩
    rw [get_append_one, if_pos h1]
    exact h
  · rw [if_neg h1] at h
    by_cases h2 : f = init.length
    · rw [if_pos h2] at h
      obtain rfl : lastF = fr := by injection h
      refine ⟨{ lastF with cells := lastF.cells ++ [c0] }, ?_, ?_⟩
      · rw [get_append_one, if_neg h1, if_pos h2]
      · exact List.mem_append_left _ hc
    · rw [if_neg h2] at h
      cases h

theorem mem_after_push_rev (init : List WFrame) (lastF : WFrame) (c0 : WCel) (f : Nat)
    (fr' : WFrame) (c : WCel)
    (h : (init ++ [{ lastF with cells := lastF.cells ++ [c0] }])[f]? = some fr')
    (hc : c ∈ fr'.cells) :
    (∃ fr, (init ++ [lastF])[f]? = some fr ∧ c ∈ fr.cells) ∨ (f = init.length ∧ c = c0) := by
  rw [get_append_one] at h
  by_cases h1 : f < init.length
  · rw [if_pos h1] at h
    exact Or.inl ⟨fr', by rw [get_append_one, if_pos h1]; exact h, hc⟩
  · rw [if_neg h1] at h
    by_cases h2 : f = init.length
    · rw [if_pos h2] at h
      obtain rfl : { lastF with cells := lastF.cells ++ [c0] } = fr' := by injection h
      rcases List.mem_append.mp hc with hold | hnew
      · exact Or.inl ⟨lastF, by rw [get_append_one, if_neg h1, if_pos h2], hold⟩
      · exact Or.inr ⟨h2, List.mem_singleton.mp hnew⟩
    · rw [if_neg h2] at h
      cases h

theorem countImageCels_push (init : List WFrame) (lastF : WFrame) (c0 : WCel) :
    countImageCels (init ++ [{ lastF with cells := lastF.cells ++ [c0] }])
      = countImageCels (init ++ [lastF]) + (if isImageCel c0 then 1 else 0) := by
  rw [countImageCels_append, countImageCels_append]
  simp only [countImageCels, List.map_cons, List.map_nil, List.sum_cons, List.sum_nil,
    List.filter_append]
  by_cases h : isImageCel c0 <;> simp [h] <;> omega

theorem lookupMap_cons (k0 : Nat × Nat) (v0 : Nat) (m : List ((Nat × Nat) × Nat))
    (k : Nat × Nat) :
    lookupMap ((k0, v0) :: m) k = if k0 = k then some v0 else lookupMap m k := by
  by_cases h : k0 = k
  · subst h
    simp [lookupMap, List.find?]
  · simp [lookupMap, List.find?, h]

theorem inv_processCel (st st' : LoaderState) (cc : CelChunk) (u : UserDataChunk)
    (hInv : Inv st.frames st.images st.image_map)
    (h : processCel st cc u = .ok st') :
    Inv st'.frames st'.images st'.image_map := by
  obtain ⟨hCount, hMap, hLink, hKind⟩ := hInv
  unfold processCel at h
  cases hcc : cc.content with
  | image img =>
      rw [hcc] at h
      simp only at h
      cases hp : pushCelLast st.frames ⟨cc, u, st.images.length⟩ with
      | none => rw [hp] at h; cases h
      | some fs =>
          rw [hp] at h
          obtain rfl : _ = st' := by injection h
          obtain ⟨init, lastF, hdec, hres⟩ := pushCelLast_decomp _ _ _ hp
          have himg : isImageCel ⟨cc, u, st.images.length⟩ = true := by
            simp [isImageCel, hcc]
          refine ⟨?_, ?_, ?_, ?_⟩
          · show (st.images ++ [img]).length = countImageCels fs
            rw [hres, countImageCels_push]
            rw [hdec] at hCount
            simp only [himg, if_true, List.length_append, List.length_cons, List.length_nil]
            omega
          · intro f l i hlook
            simp only at hlook
            rw [lookupMap_cons] at hlook
            by_cases hk : (st.frames.length - 1, cc.layer_index) = (f, l)
            · rw [if_pos hk] at hlook
              obtain rfl : st.images.length = i := by injection hlook
              injection hk with hf hl
              have hflen : f = init.length := by
                rw [hdec] at hf
                simp at hf
                omega
              refine ⟨{ lastF with cells := lastF.cells ++ [⟨cc, u, st.images.length⟩] },
                ⟨cc, u, st.images.length⟩, ?_, ?_, ?_, himg, rfl⟩
              · rw [hres, get_append_one, if_neg (by omega), if_pos hflen]
              · exact List.mem_append_right _ (List.mem_singleton.mpr rfl)
              · exact hl
            · rw [if_neg hk] at hlook
              obtain ⟨fr, c, hget, hmem, hlay, himc, hidx⟩ := hMap f l i hlook
              rw [hdec] at hget
              obtain ⟨fr', hget', hmem'⟩ := mem_after_push init lastF _ f fr c hget hmem
              exact ⟨fr', c, by rw [hres]; exact hget', hmem', hlay, himc, hidx⟩
          · intro f fr hget c hc fp hcfp
            rw [hres] at hget
            rcases mem_after_push_rev init lastF _ f fr c hget hc with ⟨fr0, hget0, hc0⟩ | ⟨hf, rfl⟩
            · obtain ⟨fr2, c2, hg2, hm2, hl2, hi2, hx2⟩ :=
                hLink f fr0 (by rw [hdec]; exact hget0) c hc0 fp hcfp
              rw [hdec] at hg2
              obtain ⟨fr2', hg2', hm2'⟩ := mem_after_push init lastF _ fp fr2 c2 hg2 hm2
              exact ⟨fr2', c2, by rw [hres]; exact hg2', hm2', hl2, hi2, hx2⟩
            · simp only at hcfp
              rw [hcc] at hcfp
              cases hcfp
          · intro f fr hget c hc
            rw [hres] at hget
            rcases mem_after_push_rev init lastF _ f fr c hget hc with ⟨fr0, hget0, hc0⟩ | ⟨hf, rfl⟩
            · exact hKind f fr0 (by rw [hdec]; exact hget0) c hc0
            · exact Or.inl himg
  | linkedCel fp0 =>
      rw [hcc] at h
      simp only at h
      cases hlk : lookupMap st.image_map (fp0, cc.layer_index) with
      | none => rw [hlk] at h; cases h
      | some i =>
          rw [hlk] at h
          simp only [] at h
          cases hp : pushCelLast st.frames ⟨cc, u, i⟩ with
          | none => rw [hp] at h; cases h
          | some fs =>
              rw [hp] at h
              obtain rfl : _ = st' := by injection h
              obtain ⟨init, lastF, hdec, hres⟩ := pushCelLast_decomp _ _ _ hp
              have himg : isImageCel ⟨cc, u, i⟩ = false := by
                simp [isImageCel, hcc]
              refine ⟨?_, ?_, ?_, ?_⟩
              · show st.images.length = countImageCels fs
                rw [hres, countImageCels_push]
                rw [hdec] at hCount
                simp only [himg, Bool.false_eq_true, if_false]
                omega
              · intro f l j hlook
                obtain ⟨fr, c, hget, hmem, hlay, himc, hidx⟩ := hMap f l j hlook
                rw [hdec] at hget
                obtain ⟨fr', hget', hmem'⟩ := mem_after_push init lastF _ f fr c hget hmem
                exact ⟨fr', c, by rw [hres]; exact hget', hmem', hlay, himc, hidx⟩
              · intro f fr hget c hc fp hcfp
                rw [hres] at hget
                rcases mem_after_push_rev init lastF _ f fr c hget hc with
                  ⟨fr0, hget0, hc0⟩ | ⟨hf, rfl⟩
                · obtain ⟨fr2, c2, hg2, hm2, hl2, hi2, hx2⟩ :=
                    hLink f fr0 (by rw [hdec]; exact hget0) c hc0 fp hcfp
                  rw [hdec] at hg2
                  obtain ⟨fr2', hg2', hm2'⟩ := mem_after_push init lastF _ fp fr2 c2 hg2 hm2
                  exact ⟨fr2', c2, by rw [hres]; exact hg2', hm2', hl2, hi2, hx2⟩
                · simp only at hcfp
                  rw [hcc] at hcfp
                  obtain rfl : fp0 = fp := by injection hcfp
                  obtain ⟨fr2, c2, hg2, hm2, hl2, hi2, hx2⟩ := hMap fp0 cc.layer_index i hlk
                  rw [hdec] at hg2
                  obtain ⟨fr2', hg2', hm2'⟩ := mem_after_push init lastF _ fp0 fr2 c2 hg2 hm2
                  exact ⟨fr2', c2, by rw [hres]; exact hg2', hm2', hl2, hi2, hx2⟩
              · intro f fr hget c hc
                rw [hres] at hget
                rcases mem_after_push_rev init lastF _ f fr c hget hc with
                  ⟨fr0, hget0, hc0⟩ | ⟨hf, rfl⟩
                · exact hKind f fr0 (by rw [hdec]; exact hget0) c hc0
                · exact Or.inr ⟨fp0, by simp [hcc]⟩
  | compressedTilemap => rw [hcc] at h; cases h
  | unknown n => rw [hcc] at h; cases h

theorem isImageCel_iff (c : WCel) :
    isImageCel c = true ↔ ∃ img, c.chunk.content = .image img := by
  unfold isImageCel
  cases hc : c.chunk.content <;> simp [hc]

theorem get_mono_append (fs : List WFrame) (x : WFrame) (f : Nat) (fr : WFrame)
    (h : fs[f]? = some fr) : (fs ++ [x])[f]? = some fr := by
  have hf : f < fs.length := by
    by_contra hcon
    rw [List.getElem?_eq_none (by omega)] at h
    cases h
  rw [get_append_one, if_pos hf]
  exact h

theorem processTags_fields : ∀ (ts : List TagChunk) (st : LoaderState) (rest : List Chunk),
    (processTags st ts rest).1.frames = st.frames ∧
    (processTags st ts rest).1.images = st.images ∧
    (processTags st ts rest).1.image_map = st.image_map := by
  intro ts
  induction ts with
  | nil => intro st rest; exact ⟨rfl, rfl, rfl⟩
  | cons t ts ih =>
      intro st rest
      cases rest with
      | nil => exact ih (st.pushTag t {}) []
      | cons c rest2 => cases c <;> exact ih _ _

theorem inv_pushFrame (st : LoaderState) (d : Nat)
    (hInv : Inv st.frames st.images st.image_map) :
    Inv (st.frames ++ [⟨d, []⟩]) st.images st.image_map := by
  obtain ⟨hCount, hMap, hLink, hKind⟩ := hInv
  refine ⟨?_, ?_, ?_, ?_⟩
  · rw [countImageCels_append]
    simpa [countImageCels] using hCount
  · intro f l i hlook
    obtain ⟨fr, c, hget, hmem, hlay, himc, hidx⟩ := hMap f l i hlook
    exact ⟨fr, c, get_mono_append _ _ _ _ hget, hmem, hlay, himc, hidx⟩
  · intro f fr hget c hc fp hcfp
    rw [get_append_one] at hget
    by_cases h1 : f < st.frames.length
    · rw [if_pos h1] at hget
      obtain ⟨fr2, c2, hg2, hm2, hl2, hi2, hx2⟩ := hLink f fr hget c hc fp hcfp
      exact ⟨fr2, c2, get_mono_append _ _ _ _ hg2, hm2, hl2, hi2, hx2⟩
    · rw [if_neg h1] at hget
      by_cases h2 : f = st.frames.length
      · rw [if_pos h2] at hget
        obtain rfl : (⟨d, []⟩ : WFrame) = fr := by injection hget
        cases hc
      · rw [if_neg h2] at hget
        cases hget
  · intro f fr hget c hc
    rw [get_append_one] at hget
    by_cases h1 : f < st.frames.length
    · rw [if_pos h1] at hget
      exact hKind f fr hget c hc
    · rw [if_neg h1] at hget
      by_cases h2 : f = st.frames.length
      · rw [if_pos h2] at hget
        obtain rfl : (⟨d, []⟩ : WFrame) = fr := by injection hget
        cases hc
      · rw [if_neg h2] at hget
        cases hget

theorem inv_processAux : ∀ (fuel : Nat) (cs : List Chunk) (st st' : LoaderState),
    Inv st.frames st.images st.image_map →
    processAux fuel st cs = .ok st' →
    Inv st'.frames st'.images st'.image_map := by
  intro fuel
  induction fuel with
  | zero =>
      intro cs st st' hInv h
      cases cs with
      | nil =>
          obtain rfl : st = st' := by injection h
          exact hInv
      | cons c cs2 => simp [processAux] at h
  | succ fuel ih =>
      intro cs st st' hInv h
      cases cs with
      | nil =>
          obtain rfl : st = st' := by injection h
          exact hInv
      | cons c rest =>
          cases c with
          | colorProfile p => exact ih rest { st with color_profile := some p } st' hInv h
          | palette pc =>
              exact ih rest { st with palette := applyPalette st.palette pc } st' hInv h
          | tileset t => exact ih rest { st with tilesets := st.tilesets ++ [t] } st' hInv h
          | layer lc =>
              cases rest with
              | nil => exact ih [] (st.pushLayer lc {}) st' hInv h
              | cons c2 rest2 =>
                  cases c2 with
                  | userData u => exact ih rest2 (st.pushLayer lc u) st' hInv h
                  | colorProfile p => exact ih _ (st.pushLayer lc {}) st' hInv h
                  | palette pc => exact ih _ (st.pushLayer lc {}) st' hInv h
                  | layer lc2 => exact ih _ (st.pushLayer lc {}) st' hInv h
                  | tileset t => exact ih _ (st.pushLayer lc {}) st' hInv h
                  | cel cc2 => exact ih _ (st.pushLayer lc {}) st' hInv h
                  | tags tc => exact ih _ (st.pushLayer lc {}) st' hInv h
                  | slice => exact ih _ (st.pushLayer lc {}) st' hInv h
                  | externalFiles => exact ih _ (st.pushLayer lc {}) st' hInv h
                  | celExtra => exact ih _ (st.pushLayer lc {}) st' hInv h
                  | palette0004 => exact ih _ (st.pushLayer lc {}) st' hInv h
                  | palette0011 => exact ih _ (st.pushLayer lc {}) st' hInv h
                  | mask => exact ih _ (st.pushLayer lc {}) st' hInv h
                  | path => exact ih _ (st.pushLayer lc {}) st' hInv h
                  | unsupported => exact ih _ (st.pushLayer lc {}) st' hInv h
          | cel cc =>
              have step : ∀ (ud : UserDataChunk) (rest2 : List Chunk),
                  ((processCel st cc ud).bind fun st2 => processAux fuel st2 rest2) = .ok st' →
                  Inv st'.frames st'.images st'.image_map := by
                intro ud rest2 hbind
                cases hpc : processCel st cc ud with
                | ok st2 =>
                    rw [hpc] at hbind
                    simp only [RRes.bind] at hbind
                    exact ih rest2 st2 st' (inv_processCel st st2 cc ud hInv hpc) hbind
                | err e =>
                    rw [hpc] at hbind
                    simp [RRes.bind] at hbind
                | panicked =>
                    rw [hpc] at hbind
                    simp [RRes.bind] at hbind
              cases rest with
              | nil => exact step {} [] h
              | cons c2 rest2 =>
                  cases c2 with
                  | userData u => exact step u rest2 h
                  | colorProfile p => exact step {} _ h
                  | palette pc => exact step {} _ h
                  | layer lc => exact step {} _ h
                  | tileset t => exact step {} _ h
                  | cel cc2 => exact step {} _ h
                  | tags tc => exact step {} _ h
                  | slice => exact step {} _ h
                  | externalFiles => exact step {} _ h
                  | celExtra => exact step {} _ h
                  | palette0004 => exact step {} _ h
                  | palette0011 => exact step {} _ h
                  | mask => exact step {} _ h
                  | path => exact step {} _ h
                  | unsupported => exact step {} _ h
          | tags tc =>
              have hfields := processTags_fields tc st rest
              refine ih (processTags st tc rest).2 (processTags st tc rest).1 st' ?_ h
              rw [hfields.1, hfields.2.1, hfields.2.2]
              exact hInv
          | slice => exact ih rest st st' hInv h
          | externalFiles => exact ih rest st st' hInv h
          | userData u => exact ih rest st st' hInv h
          | celExtra => exact ih rest st st' hInv h
          | palette0004 => exact ih rest st st' hInv h
          | palette0011 => exact ih rest st st' hInv h
          | mask => exact ih rest st st' hInv h
          | path => exact ih rest st st' hInv h
          | unsupported => exact ih rest st st' hInv h

theorem inv_loadFrames : ∀ (frames : List RawFrame) (st st' : LoaderState),
    Inv st.frames st.images st.image_map →
    loadFrames st frames = .ok st' →
    Inv st'.frames st'.images st'.image_map := by
  intro frames
  induction frames with
  | nil =>
      intro st st' hInv h
      obtain rfl : st = st' := by injection h
      exact hInv
  | cons rf rest ih =>
      intro st st' hInv h
      have hInv1 : Inv ({ st with frames := st.frames ++ [(⟨rf.duration, []⟩ : WFrame)] }).frames
          ({ st with frames := st.frames ++ [(⟨rf.duration, []⟩ : WFrame)] }).images
          ({ st with frames := st.frames ++ [(⟨rf.duration, []⟩ : WFrame)] }).image_map :=
        inv_pushFrame st rf.duration hInv
      cases hpa : processAux rf.chunks.length
          { st with frames := st.frames ++ [(⟨rf.duration, []⟩ : WFrame)] } rf.chunks with
      | ok st2 =>
          have h2 : loadFrames st2 rest = .ok st' := by
            have hh : ((processAux rf.chunks.length
                { st with frames := st.frames ++ [(⟨rf.duration, []⟩ : WFrame)] } rf.chunks).bind
                  fun st2 => loadFrames st2 rest) = .ok st' := h
            rw [hpa] at hh
            simpa [RRes.bind] using hh
          exact ih st2 st' (inv_processAux _ _ _ _ hInv1 hpa) h2
      | err e =>
          have hh : ((processAux rf.chunks.length
              { st with frames := st.frames ++ [(⟨rf.duration, []⟩ : WFrame)] } rf.chunks).bind
                fun st2 => loadFrames st2 rest) = .ok st' := h
          rw [hpa] at hh
          simp [RRes.bind] at hh
      | panicked =>
          have hh : ((processAux rf.chunks.length
              { st with frames := st.frames ++ [(⟨rf.duration, []⟩ : WFrame)] } rf.chunks).bind
                fun st2 => loadFrames st2 rest) = .ok st' := h
          rw [hpa] at hh
          simp [RRes.bind] at hh

theorem decompressAll_length (inflate : List Nat → Except String (List Nat)) :
    ∀ (imgs : List Image) (out : List RgbaImage),
      decompressAll inflate imgs = .ok out → out.length = imgs.length := by
  intro imgs
  induction imgs with
  | nil =>
      intro out h
      obtain rfl : ([] : List RgbaImage) = out := by injection h
      rfl
  | cons img rest ih =>
      intro out h
      cases hd : decompressImage inflate img with
      | ok i =>
          have hh : ((decompressImage inflate img).bind fun i =>
              (decompressAll inflate rest).bind fun is2 => .ok (i :: is2)) = .ok out := h
          rw [hd] at hh
          simp only [RRes.bind] at hh
          cases hr : decompressAll inflate rest with
          | ok is2 =>
              rw [hr] at hh
              obtain rfl : i :: is2 = out := by injection hh
              simp [ih is2 hr]
          | err e => rw [hr] at hh; cases hh
          | panicked => rw [hr] at hh; cases hh
      | err e =>
          have hh : ((decompressImage inflate img).bind fun i =>
              (decompressAll inflate rest).bind fun is2 => .ok (i :: is2)) = .ok out := h
          rw [hd] at hh
          simp [RRes.bind] at hh
      | panicked =>
          have hh : ((decompressImage inflate img).bind fun i =>
              (decompressAll inflate rest).bind fun is2 => .ok (i :: is2)) = .ok out := h
          rw [hd] at hh
          simp [RRes.bind] at hh

theorem inv_initState : Inv initState.frames initState.images initState.image_map := by
  refine ⟨rfl, ?_, ?_, ?_⟩
  · intro f l i hlook
    simp [lookupMap, initState] at hlook
  · intro f fr hget
    simp [initState] at hget
  · intro f fr hget
    simp [initState] at hget

/-- C4: for every successfully loaded file, the image store holds exactly
one image per cel with direct image content (linked cels add nothing to
it, and the decompressed store has the same length), every cel is either a
direct-image cel or a linked cel, and every linked cel's image index
resolves to the image index previously recorded for (linked frame
position, same layer): some direct-image cel of the linked-to frame on the
same layer carries the same image index, so the linked cel decodes to
exactly the same entry of the decompressed image store. -/
theorem c4_linked_cels (inflate : List Nat → Except String (List Nat)) (file : RawFile)
    (res : AsepriteFile) (h : AsepriteFile.new inflate file = .ok res) :
    res.images.length = countImageCels res.frames
    ∧ res.images_decompressed.length = res.images.length
    ∧ (∀ (f : Nat) (fr : WFrame), res.frames[f]? = some fr →
        ∀ (c : WCel), c ∈ fr.cells →
          (∃ img, c.chunk.content = .image img) ∨ (∃ fp, c.chunk.content = .linkedCel fp))
    ∧ (∀ (f : Nat) (fr : WFrame), res.frames[f]? = some fr →
        ∀ (c : WCel), c ∈ fr.cells → ∀ (fp : Nat), c.chunk.content = .linkedCel fp →
          ∃ (fr2 : WFrame) (c2 : WCel), res.frames[fp]? = some fr2 ∧ c2 ∈ fr2.cells
            ∧ c2.chunk.layer_index = c.chunk.layer_index
            ∧ (∃ img2, c2.chunk.content = .image img2)
            ∧ c2.image_index = c.image_index
            ∧ res.images_decompressed[c.image_index]?
                = res.images_decompressed[c2.image_index]?) := by
  unfold AsepriteFile.new at h
  cases hlf : loadFrames initState file.frames with
  | err e => rw [hlf] at h; cases h
  | panicked => rw [hlf] at h; cases h
  | ok st =>
      rw [hlf] at h
      simp only [RRes.bind] at h
      have hInv := inv_loadFrames file.frames initState st inv_initState hlf
      by_cases hdepth : file.header.color_depth ≠ .rgba
      · rw [if_pos hdepth] at h; cases h
      · rw [if_neg hdepth] at h
        cases hda : decompressAll inflate st.images with
        | err e => rw [hda] at h; cases h
        | panicked => rw [hda] at h; cases h
        | ok imgs =>
            rw [hda] at h
            simp only [RRes.bind] at h
            cases hcp : st.color_profile with
            | none => rw [hcp] at h; cases h
            | some cp =>
                rw [hcp] at h
                obtain rfl : (⟨file.header, st.palette, cp, st.layers, st.frames, st.tags,
                    st.images, imgs, st.tilesets⟩ : AsepriteFile) = res := by injection h
                obtain ⟨hCount, hMap, hLink, hKind⟩ := hInv
                refine ⟨hCount, decompressAll_length inflate st.images imgs hda, ?_, ?_⟩
                · intro f fr hget c hc
                  rcases hKind f fr hget c hc with himc | hlinked
                  · exact Or.inl ((isImageCel_iff c).mp himc)
                  · exact Or.inr hlinked
                · intro f fr hget c hc fp hcfp
                  obtain ⟨fr2, c2, hg2, hm2, hl2, hi2, hx2⟩ := hLink f fr hget c hc fp hcfp
                  exact ⟨fr2, c2, hg2, hm2, hl2, (isImageCel_iff c2).mp hi2, hx2, by rw [hx2]⟩


/-- A zlib inflate stand-in for files whose images are all uncompressed;
it is never invoked by them. -/
def inflate0 : List Nat → Except String (List Nat) := fun _ => .error "unused"

/-- A two-frame file whose second frame's cel links back to the first
frame's image on the same layer. -/
def linkedFile : RawFile :=
  ⟨⟨8, 8, .rgba⟩,
   [⟨50, [.colorProfile ⟨0⟩, .layer {},
          .cel ⟨0, 0, 0, 255, 0, .image ⟨1, 1, [9, 9, 9, 255], false⟩⟩]⟩,
    ⟨50, [.cel ⟨0, 0, 0, 255, 0, .linkedCel 0⟩]⟩]⟩

/-- The loaded form of linkedFile: one stored image, both cels pointing at
image index 0. -/
def linkedResult : AsepriteFile :=
  ⟨⟨8, 8, .rgba⟩, [], ⟨0⟩, [⟨{}, {}, []⟩],
   [⟨50, [⟨⟨0, 0, 0, 255, 0, .image ⟨1, 1, [9, 9, 9, 255], false⟩⟩, {}, 0⟩]⟩,
    ⟨50, [⟨⟨0, 0, 0, 255, 0, .linkedCel 0⟩, {}, 0⟩]⟩],
   [], [⟨1, 1, [9, 9, 9, 255], false⟩], [⟨1, 1, [9, 9, 9, 255]⟩], []⟩

/-- C4 witness: the two-frame linked-cel file loads, and the conclusions
hold for it (in particular its image store has length 1, the number of its
non-linked cels). -/
theorem c4_linked_cels_witness :
    linkedResult.images.length = countImageCels linkedResult.frames
    ∧ linkedResult.images_decompressed.length = linkedResult.images.length
    ∧ (∀ (f : Nat) (fr : WFrame), linkedResult.frames[f]? = some fr →
        ∀ (c : WCel), c ∈ fr.cells →
          (∃ img, c.chunk.content = .image img) ∨ (∃ fp, c.chunk.content = .linkedCel fp))
    ∧ (∀ (f : Nat) (fr : WFrame), linkedResult.frames[f]? = some fr →
        ∀ (c : WCel), c ∈ fr.cells → ∀ (fp : Nat), c.chunk.content = .linkedCel fp →
          ∃ (fr2 : WFrame) (c2 : WCel), linkedResult.frames[fp]? = some fr2 ∧ c2 ∈ fr2.cells
            ∧ c2.chunk.layer_index = c.chunk.layer_index
            ∧ (∃ img2, c2.chunk.content = .image img2)
            ∧ c2.image_index = c.image_index
            ∧ linkedResult.images_decompressed[c.image_index]?
                = linkedResult.images_decompressed[c2.image_index]?) :=
  c4_linked_cels inflate0 linkedFile linkedResult (by decide)

/-! ## C3: the trailing user-data association rule -/

/-- One loop iteration on a Layer chunk: the next chunk is consumed and
attached as the layer's user data exactly when it is a User Data chunk. -/
theorem processAux_layer_eq (fuel : Nat) (st : LoaderState) (lc : LayerChunk)
    (rest : List Chunk) :
    processAux (fuel + 1) st (.layer lc :: rest)
      = match rest with
        | .userData u :: rest2 => processAux fuel (st.pushLayer lc u) rest2
        | _ => processAux fuel (st.pushLayer lc {}) rest := by
  cases rest with
  | nil => rfl
  | cons c2 rest2 => cases c2 <;> rfl

/-- One loop iteration on a Cel chunk: the next chunk is consumed and
attached as the cel's user data exactly when it is a User Data chunk. -/
theorem processAux_cel_eq (fuel : Nat) (st : LoaderState) (cc : CelChunk)
    (rest : List Chunk) :
    processAux (fuel + 1) st (.cel cc :: rest)
      = match rest with
        | .userData u :: rest2 =>
            (processCel st cc u).bind fun st2 => processAux fuel st2 rest2
        | _ => (processCel st cc {}).bind fun st2 => processAux fuel st2 rest := by
  cases rest with
  | nil => rfl
  | cons c2 rest2 => cases c2 <;> rfl

/-- A single-frame file containing a Group layer. -/
def groupFile : RawFile :=
  ⟨⟨8, 8, .rgba⟩, [⟨50, [.colorProfile ⟨0⟩, .layer { layer_type := .group }]⟩]⟩

/-- The loaded form of groupFile: the Group layer is kept as an ordinary
layer. -/
def groupResult : AsepriteFile :=
  ⟨⟨8, 8, .rgba⟩, [], ⟨0⟩, [⟨{ layer_type := .group }, {}, []⟩], [⟨50, []⟩], [], [], [], []⟩

/-- C7 counterexample: loading a file that contains a Group layer does not
fail at all: AsepriteFile::new returns Ok and keeps the Group layer as an
ordinary layer, so the claim that such a load always returns a semantic
error is false. -/
theorem c7_group_layer_counterexample :
    AsepriteFile.new inflate0 groupFile = .ok groupResult
      ∧ groupResult.layers.length = 1 := by
  refine ⟨by decide, rfl⟩

/-- C7 (amended): in the loader, a compressed-tilemap cel hits todo!() and
an unresolved linked-cel reference indexes the image map with an absent
key — both are Rust panics, not returned errors; only an unknown cel
content kind is reported through the error channel, as a Parse error (the
same kind as structural parse errors); and a Group layer is pushed as an
ordinary layer exactly like a Normal layer, so nothing fails because of
it. -/
theorem c7_unsupported_content_amended :
    (∀ (fuel : Nat) (st : LoaderState) (cc : CelChunk) (rest : List Chunk),
      cc.content = .compressedTilemap →
      processAux (fuel + 1) st (.cel cc :: rest) = .panicked)
    ∧ (∀ (fuel : Nat) (st : LoaderState) (cc : CelChunk) (fp : Nat) (rest : List Chunk),
      cc.content = .linkedCel fp →
      lookupMap st.image_map (fp, cc.layer_index) = none →
      processAux (fuel + 1) st (.cel cc :: rest) = .panicked)
    ∧ (∀ (fuel : Nat) (st : LoaderState) (cc : CelChunk) (n : Nat) (rest : List Chunk),
      cc.content = .unknown n →
      processAux (fuel + 1) st (.cel cc :: rest)
        = .err (.Parse "CelContent has unknown type!"))
    ∧ (∀ (fuel : Nat) (st : LoaderState) (lc : LayerChunk) (rest : List Chunk),
      lc.layer_type = .group →
      processAux (fuel + 1) st (.layer lc :: rest)
        = match rest with
          | .userData u :: rest2 => processAux fuel (st.pushLayer lc u) rest2
          | _ => processAux fuel (st.pushLayer lc {}) rest) := by
  refine ⟨?_, ?_, ?_, fun fuel st lc rest _ => processAux_layer_eq fuel st lc rest⟩
  · intro fuel st cc rest hcc
    have hpc : ∀ ud : UserDataChunk, processCel st cc ud = .panicked := by
      intro ud
      unfold processCel
      rw [hcc]
    rw [processAux_cel_eq]
    cases rest with
    | nil => simp only []; rw [hpc]; rfl
    | cons c2 rest2 => cases c2 <;> (simp only []; rw [hpc]; rfl)
  · intro fuel st cc fp rest hcc hlk
    have hpc : ∀ ud : UserDataChunk, processCel st cc ud = .panicked := by
      intro ud
      unfold processCel
      rw [hcc]
      simp only []
      rw [hlk]
    rw [processAux_cel_eq]
    cases rest with
    | nil => simp only []; rw [hpc]; rfl
    | cons c2 rest2 => cases c2 <;> (simp only []; rw [hpc]; rfl)
  · intro fuel st cc n rest hcc
    have hpc : ∀ ud : UserDataChunk,
        processCel st cc ud = .err (.Parse "CelContent has unknown type!") := by
      intro ud
      unfold processCel
      rw [hcc]
    rw [processAux_cel_eq]
    cases rest with
    | nil => simp only []; rw [hpc]; rfl
    | cons c2 rest2 => cases c2 <;> (simp only []; rw [hpc]; rfl)

/-- C7 witness: concrete instances of the behaviours: a tilemap cel
panics, an unresolved linked cel panics, an unknown cel content returns
the Parse error, a Group layer is pushed as an ordinary layer. -/
theorem c7_unsupported_content_amended_witness :
    processAux 1 initState [.cel ⟨0, 0, 0, 255, 0, .compressedTilemap⟩] = .panicked
    ∧ processAux 1 initState [.cel ⟨0, 0, 0, 255, 0, .linkedCel 0⟩] = .panicked
    ∧ processAux 1 initState [.cel ⟨0, 0, 0, 255, 0, .unknown 9⟩]
        = .err (.Parse "CelContent has unknown type!")
    ∧ processAux 1 initState [.layer { layer_type := .group }]
        = processAux 0 (initState.pushLayer { layer_type := .group } {}) [] :=
  ⟨c7_unsupported_content_amended.1 0 initState ⟨0, 0, 0, 255, 0, .compressedTilemap⟩ [] rfl,
   c7_unsupported_content_amended.2.1 0 initState ⟨0, 0, 0, 255, 0, .linkedCel 0⟩ 0 [] rfl
     (by decide),
   c7_unsupported_content_amended.2.2.1 0 initState ⟨0, 0, 0, 255, 0, .unknown 9⟩ 9 [] rfl,
   c7_unsupported_content_amended.2.2.2 0 initState { layer_type := .group } [] rfl⟩


/-! ## Compositor (src/make_image.rs) -/

/-- enum LoadImageError (src/make_image.rs lines 8-22).  The EmptyFrame
variant exists only in this crate's version of the error type; the
sprity-aseprite variant lacks it. -/
inductive LoadImageError where
  | TargetBufferTooSmall
  | MissingPalette
  | UnsupportedColorDepth
  | DecompressError
  | InvalidImageData
  | EmptyFrame
  deriving DecidableEq, Repr

/-- struct CroppedImage (src/make_image.rs lines 53-60). -/
structure CroppedImage where
  img : RgbaImage
  displacement_x : Nat
  displacement_y : Nat
  deriving DecidableEq, Repr

/-- struct Hitbox (src/make_image.rs lines 62-67). -/
structure Hitbox where
  offset : Nat × Nat
  size : Nat × Nat
  layer_id : Nat
  deriving DecidableEq, Repr

/-- Monadic left fold over a cel list with error and panic propagation
(the for-loops of the compositor). -/
def foldRR (f : β → α → RRes ε β) : β → List α → RRes ε β
  | b, [] => .ok b
  | b, a :: rest => (f b a).bind fun b2 => foldRR f b2 rest

/-- The 4 bytes of the pixel at (x, y) of an RGBA image. -/
def RgbaImage.pixelAt (t : RgbaImage) (x y : Nat) : List Nat :=
  (t.data.drop (4 * (y * t.width + x))).take 4

/-- Overwrite the 4 bytes of the pixel at (x, y). -/
def RgbaImage.setPixel (t : RgbaImage) (x y : Nat) (px : List Nat) : RgbaImage :=
  { t with data := t.data.take (4 * (y * t.width + x)) ++ px ++
      t.data.drop (4 * (y * t.width + x) + px.length) }

/-- Blend one cel pixel into the target at (x + tx, y + ty): every one of
the four channels goes through blend_channel with the effective alpha
cel_alpha * opacity / 255 (the channels_mut().zip(channels()) loop);
an out-of-bounds target coordinate is a panic (none), as in
image::get_pixel_mut. -/
def blendPixel (t : RgbaImage) (im : RgbaImage) (x y tx ty opacity : Nat)
    (mode : BlendMode) : Option RgbaImage :=
  let celPx := im.pixelAt x y
  let xt := x + tx
  let yt := y + ty
  if xt < t.width ∧ yt < t.height then
    some (t.setPixel xt yt ((t.pixelAt xt yt).zipWith
      (fun a b => blend_channel a b (total_alpha (celPx.getD 3 0) opacity) mode) celPx))
  else none

/-- The pixel coordinates of a w-by-h image in enumerate_pixels order
(x varies fastest). -/
def pixelIndices (w h : Nat) : List (Nat × Nat) :=
  (List.range h).flatMap (fun y => (List.range w).map (fun x => (x, y)))

/-- Blend the pixels at the given coordinates in order. -/
def blendPixelsAux (im : RgbaImage) (tx ty opacity : Nat) (mode : BlendMode) :
    RgbaImage → List (Nat × Nat) → Option RgbaImage
  | t, [] => some t
  | t, xy :: rest =>
      match blendPixel t im xy.1 xy.2 tx ty opacity mode with
      | some t2 => blendPixelsAux im tx ty opacity mode t2 rest
      | none => none

/-- Blend a whole cel image into the target with its top-left corner at
(tx, ty) (the enumerate_pixels loop of the compositor). -/
def blendImage (target im : RgbaImage) (tx ty opacity : Nat) (mode : BlendMode) :
    Option RgbaImage :=
  blendPixelsAux im tx ty opacity mode target (pixelIndices im.width im.height)

/-- One step of the bounding-box pass of
Frame::combined_frame_image_cropped (src/make_image.rs lines 74-85): skip
cels whose layer carries the invisible semantic parameter, otherwise
record that a cel contributed and extend the min/max bounds; layer and
image indexing panics when out of bounds. -/
def croppedBoundsStep (layers : List WLayer) (images : List RgbaImage)
    (acc : Nat × Nat × Nat × Nat × Bool) (cel : WCel) :
    RRes LoadImageError (Nat × Nat × Nat × Nat × Bool) :=
  match layers[WCel.layer_index cel]? with
  | none => .panicked
  | some layer =>
      if containsParam layer.parameters .invisible then .ok acc
      else
        match images[cel.image_index]? with
        | none => .panicked
        | some im =>
            .ok (min acc.1 (WCel.x cel), min acc.2.1 (WCel.y cel),
              max acc.2.2.1 (WCel.x cel + im.width),
              max acc.2.2.2.1 (WCel.y cel + im.height), true)

/-- One step of the blend pass of Frame::combined_frame_image_cropped
(src/make_image.rs lines 94-113): skip invisible-parameter layers, blend
the cel image displaced by the bounding-box offset otherwise. -/
def croppedBlendStep (layers : List WLayer) (images : List RgbaImage) (minx miny : Nat)
    (pixels : RgbaImage) (cel : WCel) : RRes LoadImageError RgbaImage :=
  match layers[WCel.layer_index cel]? with
  | none => .panicked
  | some layer =>
      if containsParam layer.parameters .invisible then .ok pixels
      else
        match images[cel.image_index]? with
        | none => .panicked
        | some im =>
            match blendImage pixels im (WCel.x cel - minx) (WCel.y cel - miny)
                layer.chunk.opacity layer.chunk.blend_mode with
            | some p2 => .ok p2
            | none => .panicked

/-- Frame::combined_frame_image_cropped (src/make_image.rs lines 70-120):
a first pass over the frame's cels computes the bounding box of the cels
whose layer does not carry the invisible parameter, starting from
(u32::MAX, u32::MAX) / (0, 0); a frame with no contributing cel is the
distinct EmptyFrame outcome; otherwise a buffer of the bounding-box size
is blended and returned with the offset as displacement. -/
def combined_frame_image_cropped (fr : WFrame) (layers : List WLayer)
    (images : List RgbaImage) : RRes LoadImageError CroppedImage :=
  (foldRR (croppedBoundsStep layers images) (4294967295, 4294967295, 0, 0, false)
      fr.cells).bind fun acc =>
  if acc.2.2.2.2 then
    let minx := acc.1
    let miny := acc.2.1
    let pixels := RgbaImage.new (acc.2.2.1 - minx) (acc.2.2.2.1 - miny)
    (foldRR (croppedBlendStep layers images minx miny) pixels fr.cells).bind fun pixels2 =>
    .ok ⟨pixels2, minx, miny⟩
  else .err .EmptyFrame

/-- One step of the full-canvas compositing loop of
AsepriteFile::combined_frame_image (src/make_image.rs lines 152-171):
skip cels whose layer's visible flag is unset, blend the cel image at its
placement otherwise. -/
def fullCanvasStep (layers : List WLayer) (images : List RgbaImage)
    (pixels : RgbaImage) (cel : WCel) : RRes LoadImageError RgbaImage :=
  match layers[WCel.layer_index cel]? with
  | none => .panicked
  | some layer =>
      if WLayer.visible layer then
        match images[cel.image_index]? with
        | none => .panicked
        | some im =>
            match blendImage pixels im (WCel.x cel) (WCel.y cel)
                layer.chunk.opacity layer.chunk.blend_mode with
            | some p2 => .ok p2
            | none => .panicked
      else .ok pixels

/-- AsepriteFile::combined_frame_image (src/make_image.rs lines 147-174):
start from a fully transparent canvas-sized buffer and blend every cel of
the frame whose layer is visible, in cel order. -/
def AsepriteFile.combined_frame_image (file : AsepriteFile) (frame_index : Nat) :
    RRes LoadImageError RgbaImage :=
  match file.frames[frame_index]? with
  | none => .panicked
  | some frame =>
      foldRR (fullCanvasStep file.layers file.images_decompressed)
        (RgbaImage.new file.header.width file.header.height) frame.cells

/-- Frame::hitboxes (src/make_image.rs lines 122-140): one Hitbox per cel
whose layer carries the hitbox semantic parameter; the pushed offset is
(cel.x(), cel.x()) exactly as in the source (the y placement is never
read), and the size is the image dimensions. -/
def hitboxes (fr : WFrame) (layers : List WLayer) (images : List RgbaImage) :
    RRes LoadImageError (List Hitbox) :=
  foldRR (fun out cel =>
    match layers[WCel.layer_index cel]? with
    | none => .panicked
    | some layer =>
        if containsParam layer.parameters .hitbox then
          match images[cel.image_index]? with
          | none => .panicked
          | some img =>
              .ok (out ++ [⟨(WCel.x cel, WCel.x cel), (img.width, img.height),
                WCel.layer_index cel⟩])
        else .ok out) [] fr.cells

/-! ## Indexed-color decoding (sprity-aseprite) -/

/-- struct Palette (sprity-aseprite/src/binary/palette.rs lines 5-16): a
dense array of 256 colors; the Default instance fills it with the all-zero
default color. -/
structure SprityPalette where
  colors : List Color
  deriving DecidableEq, Repr

/-- Palette::default (sprity-aseprite/src/binary/palette.rs lines 10-16). -/
def SprityPalette.default : SprityPalette := ⟨List.replicate 256 Color.zero⟩

/-- indexed_to_rgba (sprity-aseprite/src/loader.rs lines 419-435): a
target whose length differs from 4 times the source length is rejected
with InvalidImageData; otherwise every source byte px is decoded as
palette.colors[px].  The Rust index expression px as usize is in 0..=255
and colors is a fixed 256-element array, so the indexing never panics; the
four per-channel writes of each pixel are modelled by returning the list
of looked-up colors. -/
def indexed_to_rgba (source : List Nat) (palette : SprityPalette) (targetLen : Nat) :
    Except LoadImageError (List Color) :=
  if targetLen ≠ source.length * 4 then .error .InvalidImageData
  else .ok (source.map (fun px => palette.colors.getD px Color.zero))

/-! ## Claim theorems on the compositor and the indexed decoder -/

/-- A 1-by-1 opaque black cel image. -/
def hitboxImages : List RgbaImage := [⟨1, 1, [0, 0, 0, 255]⟩]

/-- One layer carrying the hitbox semantic parameter. -/
def hitboxLayers : List WLayer :=
  [{ chunk := {}, user_data := {}, parameters := [(.hitbox, "")] }]

/-- The cel chunk of the hitbox scenario: placement (x, y) = (1, 2). -/
def hitboxCelChunk : CelChunk :=
  { layer_index := 0, x := 1, y := 2,
    content := .image ⟨1, 1, [0, 0, 0, 255], false⟩ }

/-- One frame with a single cel placed at (x, y) = (1, 2) on the hitbox
layer. -/
def hitboxFrame : WFrame :=
  ⟨100, [{ chunk := hitboxCelChunk, user_data := {}, image_index := 0 }]⟩

/-- C1: the claim states the emitted Hitbox offset equals the cel's (x, y)
placement.  The source (src/make_image.rs line 134) pushes
offset: (cel.x(), cel.x()), so a cel placed at (1, 2) on a hitbox layer
yields offset (1, 1), not (1, 2): the y placement is never read.  This
refutes the claim on the code as written. -/
theorem c1_hitbox_offset_bug :
    hitboxes hitboxFrame hitboxLayers hitboxImages =
      .ok [{ offset := (1, 1), size := (1, 1), layer_id := 0 }]
    ∧ hitboxFrame.cells.map (fun c => (WCel.x c, WCel.y c)) = [(1, 2)]
    ∧ ((1, 1) : Nat × Nat) ≠ (1, 2) := by decide

/-- A 1-by-1 opaque red cel image. -/
def invisImages : List RgbaImage := [⟨1, 1, [255, 0, 0, 255]⟩]

/-- One layer whose visible flag (flags bit 0) is unset and which carries
no semantic parameter. -/
def invisLayers : List WLayer :=
  [{ chunk := { flags := 0 }, user_data := {}, parameters := [] }]

/-- The cel chunk of the flag-invisible scenario, placed at the origin. -/
def invisCelChunk : CelChunk :=
  { layer_index := 0, content := .image ⟨1, 1, [255, 0, 0, 255], false⟩ }

/-- One frame with a single cel at the origin on that layer. -/
def invisFrame : WFrame :=
  ⟨100, [{ chunk := invisCelChunk, user_data := {}, image_index := 0 }]⟩

/-- C5 (counterexample): the claim reads "cels on invisible layers", and
layer visibility is the flags-bit-0 property used by full-canvas
compositing; but the cropped compositor's skip condition is the distinct
invisible semantic parameter from the layer's user-data keyword list.  A
frame whose only cel lies on a flag-invisible layer without that parameter
is composited by the cropped operation into an ordinary 1-by-1 image
instead of producing the EmptyFrame outcome. -/
theorem c5_invisible_flag_counterexample :
    invisLayers.map WLayer.visible = [false]
    ∧ combined_frame_image_cropped invisFrame invisLayers invisImages =
        .ok ⟨⟨1, 1, [255, 0, 0, 255]⟩, 0, 0⟩
    ∧ combined_frame_image_cropped invisFrame invisLayers invisImages ≠
        .err .EmptyFrame := by decide

/-- The bounding-box pass ignores every cel whose layer carries the
invisible parameter, leaving the accumulator untouched. -/
theorem foldRR_bounds_invisible (layers : List WLayer) (images : List RgbaImage) :
    ∀ (cells : List WCel) (acc : Nat × Nat × Nat × Nat × Bool),
      (∀ c ∈ cells, ∃ l, layers[WCel.layer_index c]? = some l ∧
          containsParam l.parameters .invisible = true) →
      foldRR (croppedBoundsStep layers images) acc cells = .ok acc
  | [], _, _ => rfl
  | c :: rest, acc, h => by
      obtain ⟨l, hl, hp⟩ := h c (List.mem_cons_self _ _)
      have hrest := foldRR_bounds_invisible layers images rest acc
        (fun d hd => h d (List.mem_cons_of_mem _ hd))
      simp only [foldRR, croppedBoundsStep, hl, hp, if_true, RRes.bind]
      exact hrest

/-- The full-canvas pass ignores every cel whose layer's visible flag is
unset, leaving the pixel buffer untouched. -/
theorem foldRR_canvas_invisible (layers : List WLayer) (images : List RgbaImage) :
    ∀ (cells : List WCel) (pixels : RgbaImage),
      (∀ c ∈ cells, ∃ l, layers[WCel.layer_index c]? = some l ∧
          WLayer.visible l = false) →
      foldRR (fullCanvasStep layers images) pixels cells = .ok pixels
  | [], _, _ => rfl
  | c :: rest, pixels, h => by
      obtain ⟨l, hl, hv⟩ := h c (List.mem_cons_self _ _)
      have hrest := foldRR_canvas_invisible layers images rest pixels
        (fun d hd => h d (List.mem_cons_of_mem _ hd))
      simp only [foldRR, fullCanvasStep, hl, hv, if_false, RRes.bind]
      exact hrest

/-- C5 (amended): the two compositing paths use two different notions of
an invisible layer.  If every cel of a frame lies on a layer carrying the
invisible semantic parameter, cropped compositing returns the distinct
EmptyFrame outcome; and if every cel of a frame of a loaded file lies on a
layer whose visible flag is unset, full-canvas compositing returns the
all-transparent canvas-sized buffer. -/
theorem c5_empty_frame_amended :
    (∀ (fr : WFrame) (layers : List WLayer) (images : List RgbaImage),
      (∀ c ∈ fr.cells, ∃ l, layers[WCel.layer_index c]? = some l ∧
          containsParam l.parameters .invisible = true) →
      combined_frame_image_cropped fr layers images = .err .EmptyFrame)
    ∧ (∀ (file : AsepriteFile) (i : Nat) (fr : WFrame),
        file.frames[i]? = some fr →
        (∀ c ∈ fr.cells, ∃ l, file.layers[WCel.layer_index c]? = some l ∧
            WLayer.visible l = false) →
        AsepriteFile.combined_frame_image file i =
          .ok (RgbaImage.new file.header.width file.header.height)) := by
  constructor
  · intro fr layers images h
    unfold combined_frame_image_cropped
    rw [foldRR_bounds_invisible layers images fr.cells _ h]
    rfl
  · intro file i fr hget h
    unfold AsepriteFile.combined_frame_image
    rw [hget]
    exact foldRR_canvas_invisible file.layers file.images_decompressed fr.cells _ h

/-- A layer carrying the invisible semantic parameter. -/
def c5ParamLayer : WLayer :=
  { chunk := {}, user_data := {}, parameters := [(.invisible, "")] }

/-- The cel chunk shared by the two amended-witness frames. -/
def c5CelChunk : CelChunk :=
  { layer_index := 0, content := .image ⟨1, 1, [9, 9, 9, 255], false⟩ }

/-- A frame with one cel on that layer. -/
def c5ParamFrame : WFrame :=
  ⟨100, [{ chunk := c5CelChunk, user_data := {}, image_index := 0 }]⟩

/-- A flag-invisible layer. -/
def c5FlagLayer : WLayer :=
  { chunk := { flags := 0 }, user_data := {}, parameters := [] }

/-- A frame with one cel on that layer. -/
def c5FlagFrame : WFrame :=
  ⟨100, [{ chunk := c5CelChunk, user_data := {}, image_index := 0 }]⟩

/-- A loaded file with a 2-by-2 canvas, the flag-invisible layer and that
frame. -/
def c5File : AsepriteFile :=
  { header := ⟨2, 2, .rgba⟩, palette := [], color_profile := {},
    layers := [c5FlagLayer], frames := [c5FlagFrame], tags := [],
    images := [], images_decompressed := [⟨1, 1, [9, 9, 9, 255]⟩],
    tilesets := [] }

theorem c5_empty_frame_amended_witness :
    combined_frame_image_cropped c5ParamFrame [c5ParamLayer] [⟨1, 1, [9, 9, 9, 255]⟩] =
      .err .EmptyFrame
    ∧ AsepriteFile.combined_frame_image c5File 0 = .ok (RgbaImage.new 2 2) := by
  constructor
  · exact c5_empty_frame_amended.1 c5ParamFrame [c5ParamLayer] [⟨1, 1, [9, 9, 9, 255]⟩]
      (fun c hc => by
        cases hc with
        | head => exact ⟨c5ParamLayer, rfl, by decide⟩
        | tail _ h => cases h)
  · exact c5_empty_frame_amended.2 c5File 0 c5FlagFrame rfl
      (fun c hc => by
        cases hc with
        | head => exact ⟨c5FlagLayer, rfl, by decide⟩
        | tail _ h => cases h)

/-- The default palette with only index 0 populated. -/
def c6Palette : SprityPalette := ⟨SprityPalette.default.colors.set 0 ⟨1, 2, 3, 4⟩⟩

/-- C6 (counterexample): a lookup index outside the palette's populated
range does not yield InvalidImageData: the palette is a dense 256-color
array, so decoding the out-of-range byte 5 against a palette whose only
populated index is 0 silently produces the default all-zero color. -/
theorem c6_out_of_range_counterexample :
    c6Palette.colors.getD 0 Color.zero = ⟨1, 2, 3, 4⟩
    ∧ indexed_to_rgba [5] c6Palette 4 = .ok [Color.zero]
    ∧ indexed_to_rgba [5] c6Palette 4 ≠ .error .InvalidImageData := by decide

/-- C6 (amended): indexed_to_rgba fails with InvalidImageData exactly when
the target length is not 4 times the source length; an accepted decode
looks every source byte up in the dense palette, with the default color
for any position the list does not cover; a 1-by-1 indexed image decodes
to exactly the palette entry its byte selects; and the default palette the
loader starts from is dense with all 256 entries, so every byte lands on a
palette slot and the out-of-range error of the claim cannot occur. -/
theorem c6_indexed_lookup_amended :
    (∀ (source : List Nat) (palette : SprityPalette) (targetLen : Nat),
      indexed_to_rgba source palette targetLen = .error .InvalidImageData ↔
        targetLen ≠ source.length * 4)
    ∧ (∀ (source : List Nat) (palette : SprityPalette),
        indexed_to_rgba source palette (source.length * 4) =
          .ok (source.map (fun px => palette.colors.getD px Color.zero)))
    ∧ (∀ (palette : SprityPalette) (i : Nat),
        indexed_to_rgba [i] palette 4 = .ok [palette.colors.getD i Color.zero])
    ∧ SprityPalette.default.colors.length = 256 := by
  refine ⟨fun source palette targetLen => ?_, fun source palette => ?_,
    fun palette i => ?_, by decide⟩
  · by_cases h : targetLen = source.length * 4 <;> simp [indexed_to_rgba, h]
  · simp [indexed_to_rgba]
  · simp [indexed_to_rgba]

end Ase
